import Mathlib

/-!
Verification of the Star compiler and its managed runtime.

The runtime crates (`shadow`, `dalloc`, `alloc`) are `no_std` WebAssembly
modules that manipulate a linear memory through 4-byte loads and stores at
4-aligned addresses.  We model a linear memory shallowly as a total function
`Nat → Nat`: each address holds the word most recently stored there.  All
addresses the runtime touches are 4-aligned, so distinct addresses never
denote overlapping stores and the atomic-cell model is faithful.  Word
arithmetic is modelled on `Nat`; the `u32` operations of the source never
overflow on the in-bounds states considered here, and every subtraction is
guarded in the source by the corresponding lower bound.
-/

namespace Star

abbrev Mem := Nat → Nat

def rd (m : Mem) (a : Nat) : Nat := m a

def wr (a v : Nat) (m : Mem) : Mem := fun x => if x = a then v else m x

@[simp] theorem rd_wr_eq (a v : Nat) (m : Mem) : rd (wr a v m) a = v := by
  simp [rd, wr]

theorem rd_wr_ne {a b : Nat} (v : Nat) (m : Mem) (h : b ≠ a) :
    rd (wr a v m) b = rd m b := by
  simp [rd, wr, h]

/-! ## The shadow stack (`shadow/src/lib.rs`)

Constants and operations are transliterated from `shadow/src/lib.rs`.
`mark` is modelled by the list of `mark_pointer(value, tag)` invocations it
performs, in order; the claims under study are about which invocations
happen, not about `mark_pointer`'s own traversal. -/

namespace Shadow

def STACK_POINTER : Nat := 12
def STACK_POINTER_ADDR : Nat := 4
def FRAME_POINTER_ADDR : Nat := 8

/-- `init()` from `shadow/src/lib.rs`. -/
def init (m : Mem) : Mem :=
  wr FRAME_POINTER_ADDR STACK_POINTER (wr STACK_POINTER_ADDR STACK_POINTER m)

/-- The `for i in 0..size` zeroing loop of `push`: zero the tag/value pair of
each of the first `k` slots above `sp` (ascending, as in the source). -/
def pushZero (sp : Nat) : Nat → Mem → Mem
  | 0, m => m
  | k + 1, m => wr (sp + k * 8 + 4) 0 (wr (sp + k * 8) 0 (pushZero sp k m))

/-- `push(size)` from `shadow/src/lib.rs`. -/
def push (size : Nat) (m : Mem) : Mem :=
  let offset := size * 8 + 4
  let sp := rd m STACK_POINTER_ADDR
  let fp := rd m FRAME_POINTER_ADDR
  let m1 := pushZero sp size m
  let m2 := wr (sp + offset - 4) fp m1
  let m3 := wr FRAME_POINTER_ADDR sp m2
  wr STACK_POINTER_ADDR (sp + offset) m3

/-- `pop()` from `shadow/src/lib.rs`.  The source writes the stack pointer
before reading the saved frame pointer at `sp - 4`, and so does the model. -/
def pop (m : Mem) : Mem :=
  let sp := rd m STACK_POINTER_ADDR
  let fp := rd m FRAME_POINTER_ADDR
  let m1 := wr STACK_POINTER_ADDR fp m
  wr FRAME_POINTER_ADDR (rd m1 (sp - 4)) m1

/-- `set(value, index, ty)` from `shadow/src/lib.rs`. -/
def set (value index ty : Nat) (m : Mem) : Mem :=
  let fp := rd m FRAME_POINTER_ADDR
  wr (fp + index * 8 + 4) value (wr (fp + index * 8) ty m)

/-- The `for i in 0..size` loop of `mark`, collecting the `mark_pointer`
invocations of the first `k` iterations in order. -/
def markCallsUpTo (m : Mem) : Nat → List (Nat × Nat)
  | 0 => []
  | k + 1 =>
      markCallsUpTo m k ++
        (let ty := rd m (STACK_POINTER + k * 8)
         let val := rd m (STACK_POINTER + k * 8 + 4)
         if ty = 1 then [(val, 1)] else if ty = 2 then [(val, 2)] else [])

/-- `mark()` from `shadow/src/lib.rs`, as the ordered list of
`mark_pointer(value, tag)` invocations it performs. -/
def markCalls (m : Mem) : List (Nat × Nat) :=
  let sp := rd m STACK_POINTER_ADDR
  markCallsUpTo m ((sp - STACK_POINTER) / 8)

/-- Apply a sequence of `set(value, index, tag)` calls in order. -/
def applySets (sets : List (Nat × Nat × Nat)) (m : Mem) : Mem :=
  sets.foldl (fun m s => set s.1 s.2.1 s.2.2 m) m

end Shadow

/-- The all-zero initial shadow memory. -/
def zeroMem : Mem := fun _ => 0

/-- A shadow state with two live frames of one slot each, whose top frame's
slot 0 was set to tag 1, value 5. -/
def twoFrameState : Mem :=
  Shadow.set 5 0 1 (Shadow.push 1 (Shadow.push 1 (Shadow.init zeroMem)))

/-- C1: failing input.  After `init; push(1); push(1); set(5, 0, 1)` the top
frame's slot 0 holds tag 1 and value 5 (at addresses 24 and 28), yet `mark()`
invokes `mark_pointer` on nothing at all: the scan walks 8-byte strides from
the stack base, so the 4-byte saved-fp word of the first frame misaligns
every slot of the second frame.  The claim requires the invocation
`mark_pointer(5, 1)`. -/
theorem mark_misses_second_frame :
    rd twoFrameState 24 = 1 ∧ rd twoFrameState 28 = 5 ∧
      Shadow.markCalls twoFrameState = [] := by
  refine ⟨by decide, by decide, by decide⟩

/-- A shadow memory whose stack pointer is 0 and frame pointer is 7; such a
state is not reachable from `init` (which sets both to 12) but instantiates
the claim's arbitrary starting values. -/
def lowSpState : Mem := wr Shadow.FRAME_POINTER_ADDR 7 (wr Shadow.STACK_POINTER_ADDR 0 zeroMem)

/-- C10: counterexample.  With starting `stack_pointer = 0` and
`frame_pointer = 7`, the frame that `push(1)` lays out aliases the
`frame_pointer` cell itself (the saved-fp word lands at address 8), so
`push(1); pop()` — a sequence with an empty set list, allowed by the claim —
ends with `frame_pointer = 0`, not the original 7. -/
theorem push_pop_clobbers_fp_at_low_sp :
    rd lowSpState Shadow.FRAME_POINTER_ADDR = 7 ∧
      rd (Shadow.pop (Shadow.applySets [] (Shadow.push 1 lowSpState)))
          Shadow.FRAME_POINTER_ADDR = 0 := by
  refine ⟨by decide, by decide⟩

theorem pushZero_rd_ne {sp k a : Nat} (m : Mem)
    (h : ∀ i < k, a ≠ sp + i * 8 ∧ a ≠ sp + i * 8 + 4) :
    rd (Shadow.pushZero sp k m) a = rd m a := by
  induction k with
  | zero => rfl
  | succ k ih =>
      have hk := h k (Nat.lt_succ_self k)
      rw [Shadow.pushZero, rd_wr_ne _ _ hk.2, rd_wr_ne _ _ hk.1]
      exact ih (fun i hi => h i (Nat.lt_succ_of_lt hi))

/-- Reads of the three control words after `push n`, when the starting stack
pointer sits at or above the stack base 12. -/
theorem push_reads (m : Mem) (n : Nat) (h : 12 ≤ rd m Shadow.STACK_POINTER_ADDR) :
    rd (Shadow.push n m) Shadow.STACK_POINTER_ADDR
        = rd m Shadow.STACK_POINTER_ADDR + n * 8 + 4 ∧
      rd (Shadow.push n m) Shadow.FRAME_POINTER_ADDR = rd m Shadow.STACK_POINTER_ADDR ∧
      rd (Shadow.push n m) (rd m Shadow.STACK_POINTER_ADDR + n * 8)
        = rd m Shadow.FRAME_POINTER_ADDR := by
  set sp := rd m Shadow.STACK_POINTER_ADDR with hsp
  set fp := rd m Shadow.FRAME_POINTER_ADDR with hfp
  have h12 : 12 ≤ sp := h
  simp only [Shadow.push, ← hsp, ← hfp]
  have hoff : sp + (n * 8 + 4) - 4 = sp + n * 8 := by omega
  refine ⟨?_, ?_, ?_⟩
  · rw [rd_wr_eq]; omega
  · rw [rd_wr_ne _ _ (by simp [Shadow.STACK_POINTER_ADDR, Shadow.FRAME_POINTER_ADDR])]
    simp [Shadow.FRAME_POINTER_ADDR]
  · rw [rd_wr_ne _ _ (by simp [Shadow.STACK_POINTER_ADDR]; omega),
        rd_wr_ne _ _ (by simp [Shadow.FRAME_POINTER_ADDR]; omega), hoff, rd_wr_eq]

/-- C10 (amended): for every starting state whose stack pointer is at or
above the stack base 12 (as `init` establishes), `push(n)`, any sequence of
`set` calls with indices below `n`, then `pop()` restores both the stack
pointer and the frame pointer. -/
theorem push_sets_pop_restores (m : Mem) (n : Nat) (sets : List (Nat × Nat × Nat))
    (hsp : 12 ≤ rd m Shadow.STACK_POINTER_ADDR)
    (hidx : ∀ s ∈ sets, s.2.1 < n) :
    rd (Shadow.pop (Shadow.applySets sets (Shadow.push n m))) Shadow.STACK_POINTER_ADDR
        = rd m Shadow.STACK_POINTER_ADDR ∧
      rd (Shadow.pop (Shadow.applySets sets (Shadow.push n m))) Shadow.FRAME_POINTER_ADDR
        = rd m Shadow.FRAME_POINTER_ADDR := by
  set sp := rd m Shadow.STACK_POINTER_ADDR with hsp0
  set fp := rd m Shadow.FRAME_POINTER_ADDR with hfp0
  -- invariant preserved by each set call
  have inv :
      ∀ (sets : List (Nat × Nat × Nat)) (m1 : Mem),
        (∀ s ∈ sets, s.2.1 < n) →
        rd m1 Shadow.STACK_POINTER_ADDR = sp + n * 8 + 4 →
        rd m1 Shadow.FRAME_POINTER_ADDR = sp →
        rd m1 (sp + n * 8) = fp →
        rd (Shadow.applySets sets m1) Shadow.STACK_POINTER_ADDR = sp + n * 8 + 4 ∧
          rd (Shadow.applySets sets m1) Shadow.FRAME_POINTER_ADDR = sp ∧
          rd (Shadow.applySets sets m1) (sp + n * 8) = fp := by
    intro sets
    induction sets with
    | nil => intro m1 _ h1 h2 h3; exact ⟨h1, h2, h3⟩
    | cons s rest ih =>
        intro m1 hall h1 h2 h3
        have hidxs : s.2.1 < n := hall s (List.mem_cons_self s rest)
        have hrest : ∀ t ∈ rest, t.2.1 < n := fun t ht => hall t (List.mem_cons_of_mem s ht)
        have step : Shadow.applySets (s :: rest) m1
            = Shadow.applySets rest (Shadow.set s.1 s.2.1 s.2.2 m1) := rfl
        rw [step]
        apply ih _ hrest
        · unfold Shadow.set
          rw [h2, rd_wr_ne _ _ (by simp [Shadow.STACK_POINTER_ADDR]; omega),
              rd_wr_ne _ _ (by simp [Shadow.STACK_POINTER_ADDR]; omega), h1]
        · unfold Shadow.set
          rw [h2, rd_wr_ne _ _ (by simp [Shadow.FRAME_POINTER_ADDR]; omega),
              rd_wr_ne _ _ (by simp [Shadow.FRAME_POINTER_ADDR]; omega), h2]
        · unfold Shadow.set
          rw [h2, rd_wr_ne _ _ (by omega), rd_wr_ne _ _ (by omega), h3]
  obtain ⟨p1, p2, p3⟩ := push_reads m n hsp
  obtain ⟨q1, q2, q3⟩ := inv sets (Shadow.push n m) hidx p1 p2 p3
  have hsub : sp + n * 8 + 4 - 4 = sp + n * 8 := by omega
  have e1 : rd (wr Shadow.STACK_POINTER_ADDR sp (Shadow.applySets sets (Shadow.push n m)))
      (sp + n * 8 + 4 - 4) = fp := by
    rw [hsub, rd_wr_ne _ _ (by simp [Shadow.STACK_POINTER_ADDR]; omega), q3]
  constructor
  · simp only [Shadow.pop, q1, q2, e1]
    rw [rd_wr_ne _ _ (by simp [Shadow.STACK_POINTER_ADDR, Shadow.FRAME_POINTER_ADDR]),
        rd_wr_eq]
  · simp only [Shadow.pop, q1, q2, e1]
    rw [rd_wr_eq]

/-- C10 (amended): witness at `init`'s state with one frame of two slots and
one set call. -/
theorem push_sets_pop_restores_witness :
    rd (Shadow.pop (Shadow.applySets [(5, 1, 1)] (Shadow.push 2 (Shadow.init zeroMem))))
        Shadow.STACK_POINTER_ADDR = rd (Shadow.init zeroMem) Shadow.STACK_POINTER_ADDR ∧
      rd (Shadow.pop (Shadow.applySets [(5, 1, 1)] (Shadow.push 2 (Shadow.init zeroMem))))
        Shadow.FRAME_POINTER_ADDR = rd (Shadow.init zeroMem) Shadow.FRAME_POINTER_ADDR :=
  push_sets_pop_restores (Shadow.init zeroMem) 2 [(5, 1, 1)] (by decide)
    (by intro s hs; simp at hs; simp [hs])

/-! ## The variable-heap allocator (`dalloc/src/lib.rs`)

`memory_size()` is a parameter `msize`.  The first-fit walk of `dalloc` is
expressed with an explicit fuel argument; the walk advances by at least 20
bytes per iteration and stops once the cursor passes `msize`, so the fuel
`msize` that `dalloc` supplies can never be exhausted before the walk ends. -/

namespace Dalloc

def START : Nat := 4

/-- `dinit()` from `dalloc/src/lib.rs`. -/
def dinit (msize : Nat) (m : Mem) : Mem :=
  let m1 := wr START 0 m
  let m2 := wr (START + 4) 0 m1
  let m3 := wr (START + 8) (msize - 24) m2
  let m4 := wr (START + 12) (msize - 24) m3
  wr (msize - 4) (msize - 24) m4

/-- The writes of `dalloc`'s split branch: the allocated header, its trailer,
and the fresh free block carved out of the remainder. -/
def splitWrites (ty size length csize addr : Nat) (m : Mem) : Mem :=
  let m1 := wr addr ty m
  let m2 := wr (addr + 8) size m1
  let m3 := wr (addr + 12) length m2
  let m4 := wr (addr + 16 + size) size m3
  let left := csize - size - 20
  let ns := addr + 20 + size
  let m5 := wr ns 0 m4
  let m6 := wr (ns + 4) 0 m5
  let m7 := wr (ns + 8) left m6
  let m8 := wr (ns + 12) left m7
  wr (ns + 16 + left) left m8

/-- The `while current_addr < memory_size()` walk of `dalloc`. -/
def dallocLoop (msize ty size length : Nat) : Nat → Nat → Mem → Nat × Mem
  | 0, _, m => (0, m)
  | fuel + 1, addr, m =>
    if addr < msize then
      let cty := rd m addr
      let csize := rd m (addr + 8)
      if cty = 0 then
        if size + 20 ≤ csize then (addr + 16, splitWrites ty size length csize addr m)
        else if size ≤ csize then (addr + 16, wr addr ty m)
        else dallocLoop msize ty size length fuel (addr + csize + 20) m
      else dallocLoop msize ty size length fuel (addr + csize + 20) m
    else (0, m)

/-- `dalloc(ty, length)` from `dalloc/src/lib.rs`. -/
def dalloc (msize ty length : Nat) (m : Mem) : Nat × Mem :=
  dallocLoop msize ty (length * 8) length msize START m

/-- `dfree(pointer)` from `dalloc/src/lib.rs`: clear the type tag, coalesce
with the following free block, then with the preceding one (found through its
trailing size word), returning the canonical block address. -/
def dfree (msize pointer : Nat) (m : Mem) : Nat × Mem :=
  let addr := pointer - 16
  let m1 := wr addr 0 m
  let size := rd m1 (addr + 8)
  let endAddr := addr + 20 + size
  let m2 :=
    if endAddr < msize then
      if rd m1 endAddr = 0 then
        let combined := size + 20 + rd m1 (endAddr + 8)
        wr (addr + 16 + combined) combined
          (wr (addr + 12) combined (wr (addr + 8) combined m1))
      else m1
    else m1
  if START < addr then
    let psize := rd m2 (addr - 4)
    let paddr := addr - 20 - psize
    if rd m2 paddr = 0 then
      let combined := psize + 20 + rd m2 (addr + 8)
      (paddr, wr (paddr + 16 + combined) combined
        (wr (paddr + 12) combined (wr (paddr + 8) combined m2)))
    else (addr, m2)
  else (addr, m2)

end Dalloc

/-- C5: counterexample.  `dinit(48)` installs a single free block of 24 bytes
at address 4, whose `length` header word holds 24 (free blocks record their
byte size there).  `dalloc(1, 1)` cannot split (8 + 20 > 24) but fits
(8 ≤ 24), so it takes the entire block and writes only the type tag: the user
pointer is 20, its length word (at 16 = p−4) still holds 24 — not the
requested element count 1 — and its size word (at 12 = p−8) holds 24, not 8. -/
theorem dalloc_whole_block_stale_header :
    (Dalloc.dalloc 48 1 1 (Dalloc.dinit 48 zeroMem)).1 = 20 ∧
      rd (Dalloc.dalloc 48 1 1 (Dalloc.dinit 48 zeroMem)).2 (20 - 4) = 24 ∧
      rd (Dalloc.dalloc 48 1 1 (Dalloc.dinit 48 zeroMem)).2 (20 - 8) = 24 ∧
      rd (Dalloc.dalloc 48 1 1 (Dalloc.dinit 48 zeroMem)).2 (20 - 4) ≠ 1 ∧
      rd (Dalloc.dalloc 48 1 1 (Dalloc.dinit 48 zeroMem)).2 (20 - 8) ≠ 1 * 8 := by
  refine ⟨by decide, by decide, by decide, by decide, by decide⟩

/-- C5 (amended): when `dalloc` serves a request of `length` elements from a
free block at `addr`, then in the split case the block's length header
(at `p−4`) equals `length` and its size header (at `p−8`) equals `length*8`;
in the take-the-entire-block case only the type tag is written, and both
header words keep the values the free block already had. -/
theorem dalloc_header_fields (msize ty length fuel addr : Nat) (m : Mem)
    (haddr : addr < msize) (hfree : rd m addr = 0) :
    (length * 8 + 20 ≤ rd m (addr + 8) →
      Dalloc.dallocLoop msize ty (length * 8) length (fuel + 1) addr m
          = (addr + 16, Dalloc.splitWrites ty (length * 8) length (rd m (addr + 8)) addr m) ∧
        rd (Dalloc.splitWrites ty (length * 8) length (rd m (addr + 8)) addr m)
            (addr + 16 - 4) = length ∧
        rd (Dalloc.splitWrites ty (length * 8) length (rd m (addr + 8)) addr m)
            (addr + 16 - 8) = length * 8) ∧
    (¬ length * 8 + 20 ≤ rd m (addr + 8) → length * 8 ≤ rd m (addr + 8) →
      Dalloc.dallocLoop msize ty (length * 8) length (fuel + 1) addr m
          = (addr + 16, wr addr ty m) ∧
        rd (wr addr ty m) (addr + 16 - 4) = rd m (addr + 12) ∧
        rd (wr addr ty m) (addr + 16 - 8) = rd m (addr + 8)) := by
  constructor
  · intro hfit
    refine ⟨?_, ?_, ?_⟩
    · simp only [Dalloc.dallocLoop, if_pos haddr, hfree, if_pos rfl, if_pos hfit, if_true]
    · have h4 : addr + 16 - 4 = addr + 12 := by omega
      rw [h4]
      simp only [Dalloc.splitWrites, rd, wr]
      split_ifs <;> omega
    · have h8 : addr + 16 - 8 = addr + 8 := by omega
      rw [h8]
      simp only [Dalloc.splitWrites, rd, wr]
      split_ifs <;> omega
  · intro hnofit hfit
    refine ⟨?_, ?_, ?_⟩
    · simp only [Dalloc.dallocLoop, if_pos haddr, hfree, if_pos rfl, if_neg hnofit,
        if_pos hfit, if_true]
    · have h4 : addr + 16 - 4 = addr + 12 := by omega
      rw [h4, rd_wr_ne _ _ (by omega)]
    · have h8 : addr + 16 - 8 = addr + 8 := by omega
      rw [h8, rd_wr_ne _ _ (by omega)]

theorem dallocLoop_split_pos (msize ty size length fuel addr csize : Nat) (m : Mem)
    (hfuel : 0 < fuel) (haddr : addr < msize) (hfree : rd m addr = 0)
    (hcs : rd m (addr + 8) = csize) (hfit : size + 20 ≤ csize) :
    Dalloc.dallocLoop msize ty size length fuel addr m
      = (addr + 16, Dalloc.splitWrites ty size length csize addr m) := by
  obtain ⟨f, rfl⟩ : ∃ f, fuel = f + 1 := ⟨fuel - 1, by omega⟩
  rw [show Dalloc.dallocLoop msize ty size length (f + 1) addr m
      = if addr < msize then
          (if rd m addr = 0 then
            (if size + 20 ≤ rd m (addr + 8) then
              (addr + 16, Dalloc.splitWrites ty size length (rd m (addr + 8)) addr m)
            else if size ≤ rd m (addr + 8) then (addr + 16, wr addr ty m)
            else Dalloc.dallocLoop msize ty size length f (addr + rd m (addr + 8) + 20) m)
          else Dalloc.dallocLoop msize ty size length f (addr + rd m (addr + 8) + 20) m)
        else (0, m) from rfl]
  rw [if_pos haddr, if_pos hfree, hcs, if_pos hfit]

theorem dallocLoop_whole_pos (msize ty size length fuel addr csize : Nat) (m : Mem)
    (hfuel : 0 < fuel) (haddr : addr < msize) (hfree : rd m addr = 0)
    (hcs : rd m (addr + 8) = csize) (hnofit : ¬ size + 20 ≤ csize) (hfit : size ≤ csize) :
    Dalloc.dallocLoop msize ty size length fuel addr m = (addr + 16, wr addr ty m) := by
  obtain ⟨f, rfl⟩ : ∃ f, fuel = f + 1 := ⟨fuel - 1, by omega⟩
  rw [show Dalloc.dallocLoop msize ty size length (f + 1) addr m
      = if addr < msize then
          (if rd m addr = 0 then
            (if size + 20 ≤ rd m (addr + 8) then
              (addr + 16, Dalloc.splitWrites ty size length (rd m (addr + 8)) addr m)
            else if size ≤ rd m (addr + 8) then (addr + 16, wr addr ty m)
            else Dalloc.dallocLoop msize ty size length f (addr + rd m (addr + 8) + 20) m)
          else Dalloc.dallocLoop msize ty size length f (addr + rd m (addr + 8) + 20) m)
        else (0, m) from rfl]
  rw [if_pos haddr, if_pos hfree, hcs, if_neg hnofit, if_pos hfit]

theorem dallocLoop_skip_pos (msize ty size length fuel addr csize : Nat) (m : Mem)
    (hfuel : 0 < fuel) (haddr : addr < msize) (hty : rd m addr ≠ 0)
    (hcs : rd m (addr + 8) = csize) :
    Dalloc.dallocLoop msize ty size length fuel addr m
      = Dalloc.dallocLoop msize ty size length (fuel - 1) (addr + csize + 20) m := by
  obtain ⟨f, rfl⟩ : ∃ f, fuel = f + 1 := ⟨fuel - 1, by omega⟩
  rw [show Dalloc.dallocLoop msize ty size length (f + 1) addr m
      = if addr < msize then
          (if rd m addr = 0 then
            (if size + 20 ≤ rd m (addr + 8) then
              (addr + 16, Dalloc.splitWrites ty size length (rd m (addr + 8)) addr m)
            else if size ≤ rd m (addr + 8) then (addr + 16, wr addr ty m)
            else Dalloc.dallocLoop msize ty size length f (addr + rd m (addr + 8) + 20) m)
          else Dalloc.dallocLoop msize ty size length f (addr + rd m (addr + 8) + 20) m)
        else (0, m) from rfl]
  rw [if_pos haddr, if_neg hty, hcs]
  simp

/-- `dfree` when the following block is allocated and the freed block sits at
the heap base (no preceding block): no coalescing, the freed block's own
address is returned. -/
theorem dfree_next_alloc_base (msize pointer addr size : Nat) (m : Mem)
    (hval : pointer - 16 = addr)
    (hsz : rd (wr addr 0 m) (addr + 8) = size)
    (hend : addr + 20 + size < msize)
    (hnext : rd (wr addr 0 m) (addr + 20 + size) ≠ 0)
    (hb : ¬ Dalloc.START < addr) :
    Dalloc.dfree msize pointer m = (addr, wr addr 0 m) := by
  simp only [Dalloc.dfree, hval, hsz]
  rw [if_pos hend, if_neg hnext, if_neg hb]

/-- `dfree` when the following block is allocated and the preceding block is
allocated as well: no coalescing. -/
theorem dfree_next_alloc_prev_alloc (msize pointer addr size psize : Nat) (m : Mem)
    (hval : pointer - 16 = addr)
    (hsz : rd (wr addr 0 m) (addr + 8) = size)
    (hend : addr + 20 + size < msize)
    (hnext : rd (wr addr 0 m) (addr + 20 + size) ≠ 0)
    (hb : Dalloc.START < addr)
    (hps : rd (wr addr 0 m) (addr - 4) = psize)
    (hpty : rd (wr addr 0 m) (addr - 20 - psize) ≠ 0) :
    Dalloc.dfree msize pointer m = (addr, wr addr 0 m) := by
  simp only [Dalloc.dfree, hval, hsz]
  rw [if_pos hend, if_neg hnext, if_pos hb, hps, if_neg hpty]

/-- `dfree` when the following block is allocated but the preceding block is
free: backward coalescing through the preceding block's trailer size. -/
theorem dfree_prev_merge (msize pointer addr size psize : Nat) (m : Mem)
    (hval : pointer - 16 = addr)
    (hsz : rd (wr addr 0 m) (addr + 8) = size)
    (hend : addr + 20 + size < msize)
    (hnext : rd (wr addr 0 m) (addr + 20 + size) ≠ 0)
    (hb : Dalloc.START < addr)
    (hps : rd (wr addr 0 m) (addr - 4) = psize)
    (hpty : rd (wr addr 0 m) (addr - 20 - psize) = 0) :
    Dalloc.dfree msize pointer m =
      (addr - 20 - psize,
        wr (addr - 20 - psize + 16 + (psize + 20 + size)) (psize + 20 + size)
          (wr (addr - 20 - psize + 12) (psize + 20 + size)
            (wr (addr - 20 - psize + 8) (psize + 20 + size) (wr addr 0 m)))) := by
  simp only [Dalloc.dfree, hval, hsz]
  rw [if_pos hend, if_neg hnext, if_pos hb, hps, if_pos hpty, hsz]

/-- `dfree` when the following block is free and the freed block sits at the
heap base: forward coalescing only. -/
theorem dfree_next_merge_base (msize pointer addr size nsize : Nat) (m : Mem)
    (hval : pointer - 16 = addr)
    (hsz : rd (wr addr 0 m) (addr + 8) = size)
    (hend : addr + 20 + size < msize)
    (hnext : rd (wr addr 0 m) (addr + 20 + size) = 0)
    (hnsz : rd (wr addr 0 m) (addr + 20 + size + 8) = nsize)
    (hb : ¬ Dalloc.START < addr) :
    Dalloc.dfree msize pointer m =
      (addr,
        wr (addr + 16 + (size + 20 + nsize)) (size + 20 + nsize)
          (wr (addr + 12) (size + 20 + nsize)
            (wr (addr + 8) (size + 20 + nsize) (wr addr 0 m)))) := by
  simp only [Dalloc.dfree, hval, hsz]
  rw [if_pos hend, if_pos hnext, hnsz, if_neg hb]

/-- C5 (amended): witness.  A split at the `dinit(128)` heap (length 2), and
the take-whole case of the counterexample heap (length 1 against the 24-byte
block of `dinit(48)`). -/
theorem dalloc_header_fields_witness :
    (Dalloc.dallocLoop 128 1 (2 * 8) 2 128 4 (Dalloc.dinit 128 zeroMem)
          = (20, Dalloc.splitWrites 1 (2 * 8) 2
              (rd (Dalloc.dinit 128 zeroMem) 12) 4 (Dalloc.dinit 128 zeroMem)) ∧
        rd (Dalloc.splitWrites 1 (2 * 8) 2
            (rd (Dalloc.dinit 128 zeroMem) 12) 4 (Dalloc.dinit 128 zeroMem)) (20 - 4) = 2 ∧
        rd (Dalloc.splitWrites 1 (2 * 8) 2
            (rd (Dalloc.dinit 128 zeroMem) 12) 4 (Dalloc.dinit 128 zeroMem)) (20 - 8) = 2 * 8) ∧
      (Dalloc.dallocLoop 48 1 (1 * 8) 1 48 4 (Dalloc.dinit 48 zeroMem)
          = (20, wr 4 1 (Dalloc.dinit 48 zeroMem)) ∧
        rd (wr 4 1 (Dalloc.dinit 48 zeroMem)) (20 - 4)
            = rd (Dalloc.dinit 48 zeroMem) 16 ∧
        rd (wr 4 1 (Dalloc.dinit 48 zeroMem)) (20 - 8)
            = rd (Dalloc.dinit 48 zeroMem) 12) := by
  constructor
  · exact (dalloc_header_fields 128 1 2 127 4 (Dalloc.dinit 128 zeroMem)
      (by decide) (by decide)).1 (by decide)
  · exact (dalloc_header_fields 48 1 1 47 4 (Dalloc.dinit 48 zeroMem)
      (by decide) (by decide)).2 (by decide) (by decide)

theorem rd_wr (a b v : Nat) (m : Mem) :
    rd (wr a v m) b = if b = a then v else rd m b := by
  simp [rd, wr]

theorem rd_sw_hdr (ty size length csize addr : Nat) (m : Mem) :
    rd (Dalloc.splitWrites ty size length csize addr m) addr = ty := by
  simp only [Dalloc.splitWrites, rd_wr]
  split_ifs <;> omega

theorem rd_sw_size (ty size length csize addr : Nat) (m : Mem) :
    rd (Dalloc.splitWrites ty size length csize addr m) (addr + 8) = size := by
  simp only [Dalloc.splitWrites, rd_wr]
  split_ifs <;> omega

theorem rd_sw_len (ty size length csize addr : Nat) (m : Mem) :
    rd (Dalloc.splitWrites ty size length csize addr m) (addr + 12) = length := by
  simp only [Dalloc.splitWrites, rd_wr]
  split_ifs <;> omega

theorem rd_sw_trailer (ty size length csize addr : Nat) (m : Mem) :
    rd (Dalloc.splitWrites ty size length csize addr m) (addr + 16 + size) = size := by
  simp only [Dalloc.splitWrites, rd_wr]
  split_ifs <;> omega

theorem rd_sw_ns (ty size length csize addr : Nat) (m : Mem) :
    rd (Dalloc.splitWrites ty size length csize addr m) (addr + 20 + size) = 0 := by
  simp only [Dalloc.splitWrites, rd_wr]
  split_ifs <;> omega

theorem rd_sw_ns8 (ty size length csize addr : Nat) (m : Mem) :
    rd (Dalloc.splitWrites ty size length csize addr m) (addr + 20 + size + 8)
      = csize - size - 20 := by
  simp only [Dalloc.splitWrites, rd_wr]
  split_ifs <;> omega

theorem rd_sw_lt (ty size length csize addr a : Nat) (m : Mem) (h : a < addr) :
    rd (Dalloc.splitWrites ty size length csize addr m) a = rd m a := by
  simp only [Dalloc.splitWrites, rd_wr]
  split_ifs <;> first | omega | rfl

theorem rd_dinit_4 (msize : Nat) (m : Mem) (h : 24 ≤ msize) :
    rd (Dalloc.dinit msize m) 4 = 0 := by
  simp only [Dalloc.dinit, Dalloc.START, rd_wr]
  split_ifs <;> omega

theorem rd_dinit_12 (msize : Nat) (m : Mem) (h : 24 ≤ msize) :
    rd (Dalloc.dinit msize m) 12 = msize - 24 := by
  simp only [Dalloc.dinit, Dalloc.START, rd_wr]
  split_ifs <;> omega

/-- The heap after `dinit(msize)` and a first split allocation of `l1`
elements at the heap base. -/
def heap1 (msize ty l1 : Nat) (m : Mem) : Mem :=
  Dalloc.splitWrites ty (l1 * 8) l1 (msize - 24) 4 (Dalloc.dinit msize m)

/-- `heap1` after a second split allocation of `l2` elements. -/
def heap2 (msize ty l1 l2 : Nat) (m : Mem) : Mem :=
  Dalloc.splitWrites ty (l2 * 8) l2 (msize - 24 - l1 * 8 - 20) (24 + l1 * 8)
    (heap1 msize ty l1 m)

/-- `heap2` after a third allocation of `l3` elements that takes the entire
remaining free block. -/
def heap3 (msize ty l1 l2 : Nat) (m : Mem) : Mem :=
  wr (44 + l1 * 8 + l2 * 8) ty (heap2 msize ty l1 l2 m)

set_option maxHeartbeats 1600000 in
/-- C6: on a freshly initialised variable heap, allocate three adjacent
blocks (`l1`, `l2`, and `l3` elements, the third taking the whole remaining
free block so no free remainder abuts the first two), free the first two in
either order, and then request a block of the combined capacity.  Freeing
the second block merges it backwards into its freed predecessor through the
predecessor's trailer word (order A); freeing the first block merges the
freed successor forwards into it (order B).  Both orders leave a single free
block at address 4 whose cleared type tag, size `l1*8 + 20 + l2*8` (the
combined extent) and matching trailer are asserted, `dfree` returns the
canonical address of the coalesced block each time, and the subsequent
allocation of the combined capacity (`l1 + l2 + 2` elements) succeeds at the
same user pointer 20. -/
theorem dfree_coalesce_scenario
    (msize ty l1 l2 l3 p1 p2 p3 q1 q2 rA1 rA2 rB1 rB2 : Nat)
    (m mI m1 m2 m3 mA1 mA2 mB1 mB2 mq1 mq2 : Mem)
    (hty : ty ≠ 0)
    (h1 : l1 * 8 + 44 ≤ msize)
    (h2 : l1 * 8 + l2 * 8 + 64 ≤ msize)
    (h3 : l1 * 8 + l2 * 8 + l3 * 8 + 64 ≤ msize)
    (h4 : msize < l1 * 8 + l2 * 8 + l3 * 8 + 84)
    (hI : Dalloc.dinit msize m = mI)
    (ha1 : Dalloc.dalloc msize ty l1 mI = (p1, m1))
    (ha2 : Dalloc.dalloc msize ty l2 m1 = (p2, m2))
    (ha3 : Dalloc.dalloc msize ty l3 m2 = (p3, m3))
    (hfA1 : Dalloc.dfree msize p1 m3 = (rA1, mA1))
    (hfA2 : Dalloc.dfree msize p2 mA1 = (rA2, mA2))
    (hfB1 : Dalloc.dfree msize p2 m3 = (rB1, mB1))
    (hfB2 : Dalloc.dfree msize p1 mB1 = (rB2, mB2))
    (hq1 : Dalloc.dalloc msize ty (l1 + l2 + 2) mA2 = (q1, mq1))
    (hq2 : Dalloc.dalloc msize ty (l1 + l2 + 2) mB2 = (q2, mq2)) :
    p1 = 20 ∧ p2 = 40 + l1 * 8 ∧ p3 = 60 + l1 * 8 + l2 * 8 ∧
      rA1 = 4 ∧ rA2 = 4 ∧ rB1 = 24 + l1 * 8 ∧ rB2 = 4 ∧
      rd mA2 4 = 0 ∧ rd mA2 12 = l1 * 8 + 20 + l2 * 8 ∧
      rd mA2 (20 + (l1 * 8 + 20 + l2 * 8)) = l1 * 8 + 20 + l2 * 8 ∧
      rd mB2 4 = 0 ∧ rd mB2 12 = l1 * 8 + 20 + l2 * 8 ∧
      rd mB2 (20 + (l1 * 8 + 20 + l2 * 8)) = l1 * 8 + 20 + l2 * 8 ∧
      q1 = 20 ∧ q2 = 20 := by
  subst hI
  -- first allocation: split at the base block
  have e1 : Dalloc.dalloc msize ty l1 (Dalloc.dinit msize m)
      = (20, heap1 msize ty l1 m) := by
    unfold Dalloc.dalloc Dalloc.START heap1
    rw [dallocLoop_split_pos msize ty (l1 * 8) l1 msize 4 (msize - 24)
      (Dalloc.dinit msize m) (by omega) (by omega)
      (rd_dinit_4 msize m (by omega)) (rd_dinit_12 msize m (by omega)) (by omega)]
  have h1' := e1.symm.trans ha1
  have hp1 : p1 = 20 := (congrArg Prod.fst h1').symm
  have hm1 : m1 = heap1 msize ty l1 m := (congrArg Prod.snd h1').symm
  subst hp1; subst hm1
  -- reads of heap1
  have k1hdr : rd (heap1 msize ty l1 m) 4 = ty := rd_sw_hdr _ _ _ _ _ _
  have k1size : rd (heap1 msize ty l1 m) 12 = l1 * 8 := rd_sw_size _ _ _ _ 4 _
  have k1b2 : rd (heap1 msize ty l1 m) (24 + l1 * 8) = 0 := by
    have := rd_sw_ns ty (l1 * 8) l1 (msize - 24) 4 (Dalloc.dinit msize m)
    rw [show 24 + l1 * 8 = 4 + 20 + l1 * 8 by omega]
    exact this
  have k1b2s : rd (heap1 msize ty l1 m) (24 + l1 * 8 + 8) = msize - 24 - l1 * 8 - 20 := by
    have := rd_sw_ns8 ty (l1 * 8) l1 (msize - 24) 4 (Dalloc.dinit msize m)
    rw [show 24 + l1 * 8 + 8 = 4 + 20 + l1 * 8 + 8 by omega]
    exact this
  -- second allocation: skip the first block, split the remainder
  have e2 : Dalloc.dalloc msize ty l2 (heap1 msize ty l1 m)
      = (40 + l1 * 8, heap2 msize ty l1 l2 m) := by
    unfold Dalloc.dalloc Dalloc.START heap2
    rw [dallocLoop_skip_pos msize ty (l2 * 8) l2 msize 4 (l1 * 8)
      (heap1 msize ty l1 m) (by omega) (by omega)
      (by rw [k1hdr]; exact hty) k1size]
    rw [show 4 + l1 * 8 + 20 = 24 + l1 * 8 by omega]
    rw [dallocLoop_split_pos msize ty (l2 * 8) l2 (msize - 1) (24 + l1 * 8)
      (msize - 24 - l1 * 8 - 20) (heap1 msize ty l1 m) (by omega) (by omega)
      k1b2 k1b2s (by omega)]
    rw [show 24 + l1 * 8 + 16 = 40 + l1 * 8 by omega]
  have h2' := e2.symm.trans ha2
  have hp2 : p2 = 40 + l1 * 8 := (congrArg Prod.fst h2').symm
  have hm2 : m2 = heap2 msize ty l1 l2 m := (congrArg Prod.snd h2').symm
  subst hp2; subst hm2
  -- reads of heap2
  have k2hdr : rd (heap2 msize ty l1 l2 m) 4 = ty := by
    unfold heap2
    rw [rd_sw_lt _ _ _ _ _ _ _ (by omega)]
    exact k1hdr
  have k2size : rd (heap2 msize ty l1 l2 m) 12 = l1 * 8 := by
    unfold heap2
    rw [rd_sw_lt _ _ _ _ _ _ _ (by omega)]
    exact k1size
  have k2b2 : rd (heap2 msize ty l1 l2 m) (24 + l1 * 8) = ty := by
    unfold heap2
    exact rd_sw_hdr _ _ _ _ _ _
  have k2b2s : rd (heap2 msize ty l1 l2 m) (24 + l1 * 8 + 8) = l2 * 8 := by
    unfold heap2
    exact rd_sw_size _ _ _ _ _ _
  have k2b3 : rd (heap2 msize ty l1 l2 m) (44 + l1 * 8 + l2 * 8) = 0 := by
    unfold heap2
    rw [show 44 + l1 * 8 + l2 * 8 = 24 + l1 * 8 + 20 + l2 * 8 by omega]
    exact rd_sw_ns _ _ _ _ _ _
  have k2b3s : rd (heap2 msize ty l1 l2 m) (44 + l1 * 8 + l2 * 8 + 8)
      = msize - 24 - l1 * 8 - 20 - l2 * 8 - 20 := by
    unfold heap2
    rw [show 44 + l1 * 8 + l2 * 8 + 8 = 24 + l1 * 8 + 20 + l2 * 8 + 8 by omega]
    exact rd_sw_ns8 _ _ _ _ _ _
  have k2tr1 : rd (heap2 msize ty l1 l2 m) (20 + l1 * 8) = l1 * 8 := by
    unfold heap2
    rw [rd_sw_lt _ _ _ _ _ _ _ (by omega)]
    unfold heap1
    rw [show 20 + l1 * 8 = 4 + 16 + l1 * 8 by omega]
    exact rd_sw_trailer _ _ _ _ _ _
  -- third allocation: skip two blocks, take the whole tail block
  have e3 : Dalloc.dalloc msize ty l3 (heap2 msize ty l1 l2 m)
      = (60 + l1 * 8 + l2 * 8, heap3 msize ty l1 l2 m) := by
    unfold Dalloc.dalloc Dalloc.START heap3
    rw [dallocLoop_skip_pos msize ty (l3 * 8) l3 msize 4 (l1 * 8)
      (heap2 msize ty l1 l2 m) (by omega) (by omega)
      (by rw [k2hdr]; exact hty) k2size]
    rw [show 4 + l1 * 8 + 20 = 24 + l1 * 8 by omega]
    rw [dallocLoop_skip_pos msize ty (l3 * 8) l3 (msize - 1) (24 + l1 * 8) (l2 * 8)
      (heap2 msize ty l1 l2 m) (by omega) (by omega)
      (by rw [k2b2]; exact hty) k2b2s]
    rw [show 24 + l1 * 8 + l2 * 8 + 20 = 44 + l1 * 8 + l2 * 8 by omega]
    rw [dallocLoop_whole_pos msize ty (l3 * 8) l3 (msize - 1 - 1)
      (44 + l1 * 8 + l2 * 8) (msize - 24 - l1 * 8 - 20 - l2 * 8 - 20)
      (heap2 msize ty l1 l2 m) (by omega) (by omega) k2b3 k2b3s
      (by omega) (by omega)]
    rw [show 44 + l1 * 8 + l2 * 8 + 16 = 60 + l1 * 8 + l2 * 8 by omega]
  have h3' := e3.symm.trans ha3
  have hp3 : p3 = 60 + l1 * 8 + l2 * 8 := (congrArg Prod.fst h3').symm
  have hm3 : m3 = heap3 msize ty l1 l2 m := (congrArg Prod.snd h3').symm
  subst hp3; subst hm3
  -- reads of heap3
  have g4 : rd (heap3 msize ty l1 l2 m) 4 = ty := by
    unfold heap3
    rw [rd_wr, if_neg (by omega)]
    exact k2hdr
  have g12 : rd (heap3 msize ty l1 l2 m) 12 = l1 * 8 := by
    unfold heap3
    rw [rd_wr, if_neg (by omega)]
    exact k2size
  have gb2 : rd (heap3 msize ty l1 l2 m) (24 + l1 * 8) = ty := by
    unfold heap3
    rw [rd_wr, if_neg (by omega)]
    exact k2b2
  have gb2s : rd (heap3 msize ty l1 l2 m) (24 + l1 * 8 + 8) = l2 * 8 := by
    unfold heap3
    rw [rd_wr, if_neg (by omega)]
    exact k2b2s
  have gb3 : rd (heap3 msize ty l1 l2 m) (44 + l1 * 8 + l2 * 8) = ty := by
    unfold heap3
    rw [rd_wr, if_pos (by omega)]
  have gtrail1 : rd (heap3 msize ty l1 l2 m) (20 + l1 * 8) = l1 * 8 := by
    unfold heap3
    rw [rd_wr, if_neg (by omega)]
    exact k2tr1
  -- order A, first free (block 1 at the base; block 2 still allocated)
  have eA1 : Dalloc.dfree msize 20 (heap3 msize ty l1 l2 m)
      = (4, wr 4 0 (heap3 msize ty l1 l2 m)) := by
    refine dfree_next_alloc_base msize 20 4 (l1 * 8) (heap3 msize ty l1 l2 m)
      (by omega) ?_ (by omega) ?_ (by simp only [Dalloc.START]; omega)
    · rw [rd_wr, if_neg (by omega)]
      exact g12
    · rw [rd_wr, if_neg (by omega)]
      rw [show 4 + 20 + l1 * 8 = 24 + l1 * 8 by omega, gb2]
      exact hty
  have hA1' := eA1.symm.trans hfA1
  have hrA1 : rA1 = 4 := (congrArg Prod.fst hA1').symm
  have hmA1 : mA1 = wr 4 0 (heap3 msize ty l1 l2 m) := (congrArg Prod.snd hA1').symm
  subst hrA1; subst hmA1
  -- order A, second free: merges backwards into the freed base block
  have eA2 : Dalloc.dfree msize (40 + l1 * 8) (wr 4 0 (heap3 msize ty l1 l2 m))
      = (24 + l1 * 8 - 20 - l1 * 8,
          wr (24 + l1 * 8 - 20 - l1 * 8 + 16 + (l1 * 8 + 20 + l2 * 8))
            (l1 * 8 + 20 + l2 * 8)
            (wr (24 + l1 * 8 - 20 - l1 * 8 + 12) (l1 * 8 + 20 + l2 * 8)
              (wr (24 + l1 * 8 - 20 - l1 * 8 + 8) (l1 * 8 + 20 + l2 * 8)
                (wr (24 + l1 * 8) 0 (wr 4 0 (heap3 msize ty l1 l2 m)))))) := by
    refine dfree_prev_merge msize (40 + l1 * 8) (24 + l1 * 8) (l2 * 8) (l1 * 8)
      (wr 4 0 (heap3 msize ty l1 l2 m)) (by omega) ?_ (by omega) ?_
      (by simp only [Dalloc.START]; omega) ?_ ?_
    · rw [rd_wr, if_neg (by omega), rd_wr, if_neg (by omega)]
      exact gb2s
    · rw [rd_wr, if_neg (by omega), rd_wr, if_neg (by omega)]
      rw [show 24 + l1 * 8 + 20 + l2 * 8 = 44 + l1 * 8 + l2 * 8 by omega, gb3]
      exact hty
    · rw [rd_wr, if_neg (by omega), rd_wr, if_neg (by omega)]
      rw [show 24 + l1 * 8 - 4 = 20 + l1 * 8 by omega]
      exact gtrail1
    · rw [rd_wr, if_neg (by omega), rd_wr, if_pos (by omega)]
  have hA2' := eA2.symm.trans hfA2
  have hrA2 : rA2 = 24 + l1 * 8 - 20 - l1 * 8 := (congrArg Prod.fst hA2').symm
  have hmA2 : mA2 = wr (24 + l1 * 8 - 20 - l1 * 8 + 16 + (l1 * 8 + 20 + l2 * 8))
      (l1 * 8 + 20 + l2 * 8)
      (wr (24 + l1 * 8 - 20 - l1 * 8 + 12) (l1 * 8 + 20 + l2 * 8)
        (wr (24 + l1 * 8 - 20 - l1 * 8 + 8) (l1 * 8 + 20 + l2 * 8)
          (wr (24 + l1 * 8) 0 (wr 4 0 (heap3 msize ty l1 l2 m))))) :=
    (congrArg Prod.snd hA2').symm
  -- order B, first free (block 2; both neighbours allocated)
  have eB1 : Dalloc.dfree msize (40 + l1 * 8) (heap3 msize ty l1 l2 m)
      = (24 + l1 * 8, wr (24 + l1 * 8) 0 (heap3 msize ty l1 l2 m)) := by
    refine dfree_next_alloc_prev_alloc msize (40 + l1 * 8) (24 + l1 * 8) (l2 * 8)
      (l1 * 8) (heap3 msize ty l1 l2 m) (by omega) ?_ (by omega) ?_
      (by simp only [Dalloc.START]; omega) ?_ ?_
    · rw [rd_wr, if_neg (by omega)]
      exact gb2s
    · rw [rd_wr, if_neg (by omega)]
      rw [show 24 + l1 * 8 + 20 + l2 * 8 = 44 + l1 * 8 + l2 * 8 by omega, gb3]
      exact hty
    · rw [rd_wr, if_neg (by omega)]
      rw [show 24 + l1 * 8 - 4 = 20 + l1 * 8 by omega]
      exact gtrail1
    · rw [rd_wr, if_neg (by omega)]
      rw [show 24 + l1 * 8 - 20 - l1 * 8 = 4 by omega, g4]
      exact hty
  have hB1' := eB1.symm.trans hfB1
  have hrB1 : rB1 = 24 + l1 * 8 := (congrArg Prod.fst hB1').symm
  have hmB1 : mB1 = wr (24 + l1 * 8) 0 (heap3 msize ty l1 l2 m) :=
    (congrArg Prod.snd hB1').symm
  subst hrB1; subst hmB1
  -- order B, second free: merges the free successor forwards
  have eB2 : Dalloc.dfree msize 20 (wr (24 + l1 * 8) 0 (heap3 msize ty l1 l2 m))
      = (4, wr (4 + 16 + (l1 * 8 + 20 + l2 * 8)) (l1 * 8 + 20 + l2 * 8)
          (wr (4 + 12) (l1 * 8 + 20 + l2 * 8)
            (wr (4 + 8) (l1 * 8 + 20 + l2 * 8)
              (wr 4 0 (wr (24 + l1 * 8) 0 (heap3 msize ty l1 l2 m)))))) := by
    refine dfree_next_merge_base msize 20 4 (l1 * 8) (l2 * 8)
      (wr (24 + l1 * 8) 0 (heap3 msize ty l1 l2 m)) (by omega) ?_ (by omega) ?_ ?_
      (by simp only [Dalloc.START]; omega)
    · rw [rd_wr, if_neg (by omega), rd_wr, if_neg (by omega)]
      exact g12
    · rw [rd_wr, if_neg (by omega), rd_wr, if_pos (by omega)]
    · rw [rd_wr, if_neg (by omega), rd_wr, if_neg (by omega)]
      exact gb2s
  have hB2' := eB2.symm.trans hfB2
  have hrB2 : rB2 = 4 := (congrArg Prod.fst hB2').symm
  have hmB2 : mB2 = wr (4 + 16 + (l1 * 8 + 20 + l2 * 8)) (l1 * 8 + 20 + l2 * 8)
      (wr (4 + 12) (l1 * 8 + 20 + l2 * 8)
        (wr (4 + 8) (l1 * 8 + 20 + l2 * 8)
          (wr 4 0 (wr (24 + l1 * 8) 0 (heap3 msize ty l1 l2 m))))) :=
    (congrArg Prod.snd hB2').symm
  -- reads of the coalesced block, order A
  have rA_ty : rd mA2 4 = 0 := by
    rw [hmA2]
    simp only [rd_wr]
    split_ifs <;> omega
  have rA_size : rd mA2 12 = l1 * 8 + 20 + l2 * 8 := by
    rw [hmA2]
    simp only [rd_wr]
    split_ifs <;> omega
  have rA_trailer : rd mA2 (20 + (l1 * 8 + 20 + l2 * 8)) = l1 * 8 + 20 + l2 * 8 := by
    rw [hmA2]
    simp only [rd_wr]
    split_ifs <;> omega
  -- reads of the coalesced block, order B
  have rB_ty : rd mB2 4 = 0 := by
    rw [hmB2]
    simp only [rd_wr]
    split_ifs <;> omega
  have rB_size : rd mB2 12 = l1 * 8 + 20 + l2 * 8 := by
    rw [hmB2]
    simp only [rd_wr]
    split_ifs <;> omega
  have rB_trailer : rd mB2 (20 + (l1 * 8 + 20 + l2 * 8)) = l1 * 8 + 20 + l2 * 8 := by
    rw [hmB2]
    simp only [rd_wr]
    split_ifs <;> omega
  -- the combined-capacity allocation succeeds in both orders
  have eq1 : Dalloc.dalloc msize ty (l1 + l2 + 2) mA2 = (20, wr 4 ty mA2) := by
    unfold Dalloc.dalloc Dalloc.START
    rw [dallocLoop_whole_pos msize ty ((l1 + l2 + 2) * 8) (l1 + l2 + 2) msize 4
      (l1 * 8 + 20 + l2 * 8) mA2 (by omega) (by omega) rA_ty rA_size
      (by omega) (by omega)]
  have eq2 : Dalloc.dalloc msize ty (l1 + l2 + 2) mB2 = (20, wr 4 ty mB2) := by
    unfold Dalloc.dalloc Dalloc.START
    rw [dallocLoop_whole_pos msize ty ((l1 + l2 + 2) * 8) (l1 + l2 + 2) msize 4
      (l1 * 8 + 20 + l2 * 8) mB2 (by omega) (by omega) rB_ty rB_size
      (by omega) (by omega)]
  have hqv1 : q1 = 20 := (congrArg Prod.fst (eq1.symm.trans hq1)).symm
  have hqv2 : q2 = 20 := (congrArg Prod.fst (eq2.symm.trans hq2)).symm
  exact ⟨rfl, rfl, rfl, rfl, by omega, rfl, by omega, rA_ty, rA_size, rA_trailer,
    rB_ty, rB_size, rB_trailer, hqv1, hqv2⟩

/-- Concrete 88-byte heap scenario: three one-element blocks exactly fill
the heap installed by `dinit(88)`. -/
def cHeap0 : Mem := Dalloc.dinit 88 zeroMem

def cA1 : Nat × Mem := Dalloc.dalloc 88 1 1 cHeap0

def cA2 : Nat × Mem := Dalloc.dalloc 88 1 1 cA1.2

def cA3 : Nat × Mem := Dalloc.dalloc 88 1 1 cA2.2

def cFA1 : Nat × Mem := Dalloc.dfree 88 cA1.1 cA3.2

def cFA2 : Nat × Mem := Dalloc.dfree 88 cA2.1 cFA1.2

def cFB1 : Nat × Mem := Dalloc.dfree 88 cA2.1 cA3.2

def cFB2 : Nat × Mem := Dalloc.dfree 88 cA1.1 cFB1.2

def cQ1 : Nat × Mem := Dalloc.dalloc 88 1 (1 + 1 + 2) cFA2.2

def cQ2 : Nat × Mem := Dalloc.dalloc 88 1 (1 + 1 + 2) cFB2.2

/-- C6: witness on the concrete 88-byte heap with three one-element blocks. -/
theorem dfree_coalesce_scenario_witness :
    cA1.1 = 20 ∧ cA2.1 = 40 + 1 * 8 ∧ cA3.1 = 60 + 1 * 8 + 1 * 8 ∧
      cFA1.1 = 4 ∧ cFA2.1 = 4 ∧ cFB1.1 = 24 + 1 * 8 ∧ cFB2.1 = 4 ∧
      rd cFA2.2 4 = 0 ∧ rd cFA2.2 12 = 1 * 8 + 20 + 1 * 8 ∧
      rd cFA2.2 (20 + (1 * 8 + 20 + 1 * 8)) = 1 * 8 + 20 + 1 * 8 ∧
      rd cFB2.2 4 = 0 ∧ rd cFB2.2 12 = 1 * 8 + 20 + 1 * 8 ∧
      rd cFB2.2 (20 + (1 * 8 + 20 + 1 * 8)) = 1 * 8 + 20 + 1 * 8 ∧
      cQ1.1 = 20 ∧ cQ2.1 = 20 :=
  dfree_coalesce_scenario 88 1 1 1 1 cA1.1 cA2.1 cA3.1 cQ1.1 cQ2.1
    cFA1.1 cFA2.1 cFB1.1 cFB2.1
    zeroMem cHeap0 cA1.2 cA2.2 cA3.2 cFA1.2 cFA2.2 cFB1.2 cFB2.2 cQ1.2 cQ2.2
    (by decide) (by decide) (by decide) (by decide) (by decide)
    rfl rfl rfl rfl rfl rfl rfl rfl rfl rfl

/-! ## The fixed slab allocator (`alloc/src/lib.rs`)

`alloc_memory_size()` is a parameter `msize`.  The free list of a type is
threaded through the first word of each free block's user region (at block
address + `HEADER_SIZE`); a head value 0 means the list is empty. -/

namespace Alloc

def TYPE_TABLE_INDEX : Nat := 12
def TYPE_TABLE_RECORD_SIZE : Nat := 16
def HEADER_SIZE : Nat := 8
def BUMP_PTR_ADDR : Nat := 8
def DATA_START_ADDR : Nat := 4

/-- `init()` from `alloc/src/lib.rs`. -/
def init (m : Mem) : Mem := wr BUMP_PTR_ADDR TYPE_TABLE_INDEX m

/-- `register(size, struct_count, list_count)` from `alloc/src/lib.rs`. -/
def register (size scount lcount : Nat) (m : Mem) : Mem :=
  let bump := rd m BUMP_PTR_ADDR
  let m1 := wr BUMP_PTR_ADDR (bump + TYPE_TABLE_RECORD_SIZE) m
  let m2 := wr DATA_START_ADDR (bump + TYPE_TABLE_RECORD_SIZE) m1
  let m3 := wr bump size m2
  let m4 := wr (bump + 4) 0 m3
  let m5 := wr (bump + 8) scount m4
  wr (bump + 12) lcount m5

/-- The `for i in 0..31` slab-threading loop of `falloc`: the first `k`
iterations write each block's header type id and thread its user word to the
next block (`HEADER_SIZE` = 8, `block_size` = `bs`). -/
def carve (bump bs id : Nat) : Nat → Mem → Mem
  | 0, m => m
  | k + 1, m =>
      wr (bump + k * bs + 8) (bump + k * bs + bs)
        (wr (bump + k * bs) id (carve bump bs id k m))

/-- `falloc(id)` from `alloc/src/lib.rs`: carve a fresh 32-block slab when
the type's freelist is empty, then pop the freelist head. -/
def falloc (msize id : Nat) (m : Mem) : Nat × Mem :=
  let start := TYPE_TABLE_INDEX + id * TYPE_TABLE_RECORD_SIZE
  let size := rd m start
  let free := rd m (start + 4)
  if free = 0 then
    let bump := rd m BUMP_PTR_ADDR
    let bs := HEADER_SIZE + size
    let slab := 32 * bs
    if msize < bump + slab then (0, m)
    else
      let m1 := wr BUMP_PTR_ADDR (bump + slab) m
      let m2 := carve bump bs id 31 m1
      let m3 := wr (bump + 31 * bs + HEADER_SIZE) 0 (wr (bump + 31 * bs) id m2)
      (bump + HEADER_SIZE, wr (start + 4) (rd m3 (bump + HEADER_SIZE)) m3)
  else
    (free + HEADER_SIZE, wr (start + 4) (rd m (free + HEADER_SIZE)) m)

/-- `ffree(pointer)` from `alloc/src/lib.rs`: push the block back onto its
type's freelist, locating the list through the block header's type id. -/
def ffree (p : Nat) (m : Mem) : Nat × Mem :=
  let addr := p - HEADER_SIZE
  let id := rd m addr
  let start := TYPE_TABLE_INDEX + id * TYPE_TABLE_RECORD_SIZE
  let free := rd m (start + 4)
  let m1 := wr (addr + HEADER_SIZE) free m
  (0, wr (start + 4) addr m1)

/-- `N` consecutive `falloc(id)` calls, collecting the returned pointers. -/
def fallocN (msize id : Nat) : Nat → Mem → List Nat × Mem
  | 0, m => ([], m)
  | n + 1, m =>
      let r := falloc msize id m
      let rest := fallocN msize id n r.2
      (r.1 :: rest.1, rest.2)

/-- `ffree` each pointer of the list in order. -/
def ffreeAll (ps : List Nat) (m : Mem) : Mem :=
  ps.foldl (fun m p => (ffree p m).2) m

/-- The freelist rooted at `h` consists exactly of the blocks `l`, linked
through each block's user word. -/
def chainP (m : Mem) : Nat → List Nat → Prop
  | h, [] => h = 0
  | h, a :: l => h = a ∧ a ≠ 0 ∧ chainP m (rd m (a + 8)) l

/-- Two block addresses are separated: neither coincides with the other nor
with the other's link word. -/
def Sep2 (a b : Nat) : Prop := a ≠ b ∧ a + 8 ≠ b ∧ a ≠ b + 8

/-- Well-formedness of the allocator state for type `id`: `fl` is the type's
freelist, `al` the allocated blocks of that type; all blocks lie between the
end of the type's table record and the bump pointer, carry the type id in
their header, and are pairwise separated.  The registered size is positive
and the bump pointer is beyond the table record. -/
def Inv (id : Nat) (m : Mem) (fl al : List Nat) : Prop :=
  chainP m (rd m (12 + id * 16 + 4)) fl ∧
    List.Pairwise Sep2 (fl ++ al) ∧
    (∀ a ∈ fl ++ al,
      12 + id * 16 + 16 ≤ a ∧ a + 8 + rd m (12 + id * 16) ≤ rd m 8 ∧ rd m a = id) ∧
    1 ≤ rd m (12 + id * 16) ∧ 12 + id * 16 + 16 ≤ rd m 8

end Alloc

theorem grid_lt {bs j k : Nat} (hbs : 9 ≤ bs) (h : j < k) : j * bs + 8 < k * bs := by
  have h1 : (j + 1) * bs ≤ k * bs := Nat.mul_le_mul_right bs h
  have h2 : j * bs + bs = (j + 1) * bs := by ring
  omega

theorem carve_rd_out (bump bs id : Nat) (m : Mem) :
    ∀ (k x : Nat), (∀ j < k, x ≠ bump + j * bs ∧ x ≠ bump + j * bs + 8) →
      rd (Alloc.carve bump bs id k m) x = rd m x := by
  intro k
  induction k with
  | zero => intro x _; rfl
  | succ k ih =>
      intro x h
      have hk := h k (by omega)
      rw [Alloc.carve, rd_wr, if_neg (by omega), rd_wr, if_neg (by omega)]
      exact ih x (fun j hj => h j (by omega))

theorem carve_rd_hdr (bump bs id : Nat) (m : Mem) (hbs : 9 ≤ bs) :
    ∀ (k j : Nat), j < k → rd (Alloc.carve bump bs id k m) (bump + j * bs) = id := by
  intro k
  induction k with
  | zero => intro j hj; omega
  | succ k ih =>
      intro j hj
      rcases Nat.lt_or_ge j k with hlt | hge
      · have hg := grid_lt hbs hlt
        rw [Alloc.carve, rd_wr, if_neg (by omega), rd_wr, if_neg (by omega)]
        exact ih j hlt
      · have hj' : j = k := by omega
        subst hj'
        rw [Alloc.carve, rd_wr, if_neg (by omega), rd_wr, if_pos rfl]

theorem carve_rd_link (bump bs id : Nat) (m : Mem) (hbs : 9 ≤ bs) :
    ∀ (k j : Nat), j < k →
      rd (Alloc.carve bump bs id k m) (bump + j * bs + 8) = bump + (j + 1) * bs := by
  intro k
  induction k with
  | zero => intro j hj; omega
  | succ k ih =>
      intro j hj
      rcases Nat.lt_or_ge j k with hlt | hge
      · have hg := grid_lt hbs hlt
        rw [Alloc.carve, rd_wr, if_neg (by omega), rd_wr, if_neg (by omega)]
        exact ih j hlt
      · have hj' : j = k := by omega
        subst hj'
        rw [Alloc.carve, rd_wr, if_pos rfl]
        ring

/-- The slab blocks with indices `t, t+1, …, t+c-1`. -/
def slabNodes (bump bs : Nat) : Nat → Nat → List Nat
  | _, 0 => []
  | t, c + 1 => (bump + t * bs) :: slabNodes bump bs (t + 1) c

theorem slabNodes_mem (bump bs : Nat) :
    ∀ (c t a : Nat), a ∈ slabNodes bump bs t c →
      ∃ j, t ≤ j ∧ j < t + c ∧ a = bump + j * bs := by
  intro c
  induction c with
  | zero => intro t a ha; simp [slabNodes] at ha
  | succ c ih =>
      intro t a ha
      rw [slabNodes] at ha
      rcases List.mem_cons.mp ha with h | h
      · exact ⟨t, le_refl t, by omega, h⟩
      · obtain ⟨j, h1, h2, h3⟩ := ih (t + 1) a h
        exact ⟨j, by omega, by omega, h3⟩

theorem slabNodes_chain (bump bs : Nat) (M : Mem) (hb : 0 < bump) :
    ∀ (c t : Nat), t + c = 32 → 1 ≤ t → t ≤ 31 →
      (∀ j, 1 ≤ j → j < 31 → rd M (bump + j * bs + 8) = bump + (j + 1) * bs) →
      rd M (bump + 31 * bs + 8) = 0 →
      Alloc.chainP M (bump + t * bs) (slabNodes bump bs t c) := by
  intro c
  induction c with
  | zero => intro t h1 h2 h2' _ _; omega
  | succ c ih =>
      intro t h1 h2 h2' hlink hlast
      rw [slabNodes, Alloc.chainP]
      refine ⟨rfl, (Nat.add_pos_left hb (t * bs)).ne', ?_⟩
      rcases Nat.eq_or_lt_of_le (show t ≤ 31 by omega) with heq | hlt
      · have hc : c = 0 := by omega
        subst hc
        subst heq
        rw [hlast]
        rfl
      · rw [hlink t h2 (by omega)]
        exact ih (t + 1) (by omega) (by omega) (by omega) hlink hlast

theorem slabNodes_pairwise (bump bs : Nat) (hbs : 9 ≤ bs) :
    ∀ (c t : Nat), List.Pairwise Alloc.Sep2 (slabNodes bump bs t c) := by
  intro c
  induction c with
  | zero => intro t; exact List.Pairwise.nil
  | succ c ih =>
      intro t
      rw [slabNodes]
      refine List.Pairwise.cons ?_ (ih (t + 1))
      intro b hb
      obtain ⟨j, hj1, _, hj3⟩ := slabNodes_mem bump bs c (t + 1) b hb
      have hg := grid_lt hbs (show t < j by omega)
      subst hj3
      exact ⟨by omega, by omega, by omega⟩

theorem Sep2_symm : Symmetric Alloc.Sep2 := by
  intro a b ⟨h1, h2, h3⟩
  exact ⟨Ne.symm h1, Ne.symm h3, Ne.symm h2⟩

theorem chainP_congr (m m' : Mem) :
    ∀ (l : List Nat) (h : Nat), (∀ a ∈ l, rd m' (a + 8) = rd m (a + 8)) →
      Alloc.chainP m h l → Alloc.chainP m' h l := by
  intro l
  induction l with
  | nil => intro h _ hc; exact hc
  | cons a l ih =>
      intro h hr hc
      obtain ⟨h1, h2, h3⟩ := hc
      refine ⟨h1, h2, ?_⟩
      rw [hr a (List.mem_cons_self a l)]
      exact ih _ (fun x hx => hr x (List.mem_cons_of_mem a hx)) h3

/-- `falloc` with a non-empty freelist pops its head: no slab is carved, only
the freelist head cell of the type record changes, and the invariant moves
the popped block to the allocated side. -/
theorem falloc_pop (msize id a : Nat) (fl al : List Nat) (m : Mem)
    (hInv : Alloc.Inv id m (a :: fl) al) :
    Alloc.falloc msize id m = (a + 8, wr (12 + id * 16 + 4) (rd m (a + 8)) m) ∧
      Alloc.Inv id (wr (12 + id * 16 + 4) (rd m (a + 8)) m) fl (a :: al) := by
  obtain ⟨hc, hp, hm, hs, hb⟩ := hInv
  obtain ⟨hc1, hc2, hc3⟩ := hc
  have hma := hm a (by simp)
  constructor
  · simp only [Alloc.falloc, Alloc.TYPE_TABLE_INDEX, Alloc.TYPE_TABLE_RECORD_SIZE,
      Alloc.HEADER_SIZE, hc1, if_neg hc2]
  · refine ⟨?_, ?_, ?_, ?_, ?_⟩
    · rw [rd_wr_eq]
      refine chainP_congr m _ fl (rd m (a + 8)) ?_ hc3
      intro x hx
      have hmx := hm x (by simp [hx])
      exact rd_wr_ne _ _ (by omega)
    · have hperm : List.Perm ((a :: fl) ++ al) (fl ++ a :: al) := (List.perm_middle).symm
      exact (hperm.pairwise_iff (fun h => Sep2_symm h)).mp hp
    · intro x hx
      have hx' : x ∈ (a :: fl) ++ al := by
        have : x ∈ a :: (fl ++ al) := by
          rcases List.mem_append.mp hx with h | h
          · exact List.mem_cons_of_mem a (List.mem_append.mpr (Or.inl h))
          · rcases List.mem_cons.mp h with h | h
            · exact h ▸ List.mem_cons_self a _
            · exact List.mem_cons_of_mem a (List.mem_append.mpr (Or.inr h))
        simpa using this
      have hmx := hm x hx'
      refine ⟨hmx.1, ?_, ?_⟩
      · rw [rd_wr_ne _ _ (show (12:Nat) + id * 16 ≠ 12 + id * 16 + 4 by omega),
          rd_wr_ne _ _ (show (8:Nat) ≠ 12 + id * 16 + 4 by omega)]
        exact hmx.2.1
      · rw [rd_wr_ne _ _ (by omega)]
        exact hmx.2.2
    · rw [rd_wr_ne _ _ (show (12:Nat) + id * 16 ≠ 12 + id * 16 + 4 by omega)]
      exact hs
    · rw [rd_wr_ne _ _ (show (8:Nat) ≠ 12 + id * 16 + 4 by omega)]
      exact hb

/-- `ffree(a + 8)` pushes the allocated block `a` onto its type's freelist:
the block's user word now holds the old head and the head cell holds `a`. -/
theorem ffree_push (id a : Nat) (fl al : List Nat) (m : Mem)
    (hInv : Alloc.Inv id m fl al) (ha : a ∈ al) :
    Alloc.ffree (a + 8) m
        = (0, wr (12 + id * 16 + 4) a (wr (a + 8) (rd m (12 + id * 16 + 4)) m)) ∧
      Alloc.Inv id (wr (12 + id * 16 + 4) a (wr (a + 8) (rd m (12 + id * 16 + 4)) m))
        (a :: fl) (al.erase a) := by
  obtain ⟨hc, hp, hm, hs, hb⟩ := hInv
  have hma := hm a (by simp [ha])
  have hsep : ∀ x ∈ fl ++ al, x ≠ a → x ≠ a + 8 ∧ x + 8 ≠ a + 8 := by
    intro x hx hxa
    have := List.Pairwise.forall Sep2_symm hp hx (by simp [ha]) hxa
    exact ⟨this.2.2, by have := this.1; omega⟩
  constructor
  · simp only [Alloc.ffree, Alloc.TYPE_TABLE_INDEX, Alloc.TYPE_TABLE_RECORD_SIZE,
      Alloc.HEADER_SIZE]
    rw [show a + 8 - 8 = a by omega, hma.2.2]
  · refine ⟨?_, ?_, ?_, ?_, ?_⟩
    · rw [rd_wr_eq]
      refine ⟨rfl, by omega, ?_⟩
      rw [rd_wr_ne _ _ (by omega), rd_wr_eq]
      refine chainP_congr m _ fl (rd m (12 + id * 16 + 4)) ?_ hc
      intro x hx
      have hmx := hm x (by simp [hx])
      have hxa : x ≠ a := ((List.pairwise_append.mp hp).2.2 x hx a ha).1
      rw [rd_wr_ne _ _ (by omega),
        rd_wr_ne _ _ (by omega : x + 8 ≠ a + 8)]
    · have h1 : List.Perm al (a :: al.erase a) := List.perm_cons_erase ha
      have h2 : List.Perm (fl ++ al) ((a :: fl) ++ al.erase a) :=
        (h1.append_left fl).trans List.perm_middle
      exact (h2.pairwise_iff (fun h => Sep2_symm h)).mp hp
    · intro x hx
      have hx' : x ∈ fl ++ al := by
        rcases List.mem_append.mp hx with h | h
        · rcases List.mem_cons.mp h with h | h
          · exact h ▸ List.mem_append.mpr (Or.inr ha)
          · exact List.mem_append.mpr (Or.inl h)
        · exact List.mem_append.mpr (Or.inr (List.mem_of_mem_erase h))
      have hmx := hm x hx'
      have hxne : x ≠ a + 8 := by
        by_cases hxa : x = a
        · omega
        · exact (hsep x hx' hxa).1
      refine ⟨hmx.1, ?_, ?_⟩
      · rw [rd_wr_ne _ _ (show (12:Nat) + id * 16 ≠ 12 + id * 16 + 4 by omega),
          rd_wr_ne _ _ (by omega), rd_wr_ne _ _ (show (8:Nat) ≠ 12 + id * 16 + 4 by omega),
          rd_wr_ne _ _ (by omega)]
        exact hmx.2.1
      · rw [rd_wr_ne _ _ (by omega), rd_wr_ne _ _ hxne]
        exact hmx.2.2
    · rw [rd_wr_ne _ _ (show (12:Nat) + id * 16 ≠ 12 + id * 16 + 4 by omega),
        rd_wr_ne _ _ (by omega)]
      exact hs
    · rw [rd_wr_ne _ _ (show (8:Nat) ≠ 12 + id * 16 + 4 by omega),
        rd_wr_ne _ _ (by omega)]
      exact hb

/-- The memory produced by `falloc`'s slab-carving branch before the final
head pop: bump advanced by one slab, 31 threaded blocks, the last block's
link zeroed, then the freelist head set to the popped block's link. -/
def carvedMem (id B bs : Nat) (m : Mem) : Mem :=
  let m1 := wr 8 (B + 32 * bs) m
  let m2 := Alloc.carve B bs id 31 m1
  let m3 := wr (B + 31 * bs + 8) 0 (wr (B + 31 * bs) id m2)
  wr (12 + id * 16 + 4) (rd m3 (B + 8)) m3

/-- `falloc` with an empty freelist and room for a slab: carves 32 blocks,
threads 31 of them into the freelist, and returns the first block. -/
theorem falloc_carve (msize id : Nat) (al : List Nat) (m : Mem)
    (hInv : Alloc.Inv id m [] al)
    (hroom : ¬ msize < rd m 8 + 32 * (8 + rd m (12 + id * 16))) :
    Alloc.falloc msize id m
        = (rd m 8 + 8, carvedMem id (rd m 8) (8 + rd m (12 + id * 16)) m) ∧
      Alloc.Inv id (carvedMem id (rd m 8) (8 + rd m (12 + id * 16)) m)
        (slabNodes (rd m 8) (8 + rd m (12 + id * 16)) 1 31) (rd m 8 :: al) ∧
      rd (carvedMem id (rd m 8) (8 + rd m (12 + id * 16)) m) 8
        = rd m 8 + 32 * (8 + rd m (12 + id * 16)) := by
  obtain ⟨hc, hp, hm, hs, hb⟩ := hInv
  have hc0 : rd m (12 + id * 16 + 4) = 0 := hc
  have hbs : 9 ≤ 8 + rd m (12 + id * 16) := by omega
  have hpal : List.Pairwise Alloc.Sep2 al := hp
  have h31 : 8 < 31 * (8 + rd m (12 + id * 16)) := by
    have := grid_lt hbs (show 0 < 31 by omega)
    omega
  have h319 : 279 ≤ 31 * (8 + rd m (12 + id * 16)) :=
    Nat.le_trans (by omega) (Nat.mul_le_mul_left 31 hbs)
  -- abbreviations
  set B := rd m 8 with hBdef
  set S := rd m (12 + id * 16) with hSdef
  set bs := 8 + S with hbsdef
  have hBlow : 12 + id * 16 + 16 ≤ B := hb
  -- reads through the carved memory
  have hRead8 : rd (carvedMem id B bs m) 8 = B + 32 * bs := by
    unfold carvedMem
    rw [rd_wr, if_neg (by omega), rd_wr, if_neg (by omega), rd_wr, if_neg (by omega)]
    rw [carve_rd_out B bs id _ 31 8 ?_]
    · rw [rd_wr_eq]
    · intro j hj
      have h1 : 0 * bs + 8 < 31 * bs := grid_lt hbs (by omega)
      have h2 : j * bs ≤ 31 * bs := Nat.mul_le_mul_right bs (by omega)
      constructor <;> omega
  have hReadS : rd (carvedMem id B bs m) (12 + id * 16) = S := by
    unfold carvedMem
    rw [rd_wr, if_neg (by omega), rd_wr, if_neg (by omega), rd_wr, if_neg (by omega)]
    rw [carve_rd_out B bs id _ 31 _ ?_]
    · rw [rd_wr, if_neg (by omega)]
    · intro j hj
      constructor <;> omega
  have hNext : rd (wr (B + 31 * bs + 8) 0 (wr (B + 31 * bs) id
      (Alloc.carve B bs id 31 (wr 8 (B + 32 * bs) m)))) (B + 8) = B + 1 * bs := by
    rw [rd_wr, if_neg (by omega), rd_wr, if_neg (by omega)]
    have := carve_rd_link B bs id (wr 8 (B + 32 * bs) m) hbs 31 0 (by omega)
    rw [show B + 8 = B + 0 * bs + 8 by omega, this]
  have hHead : rd (carvedMem id B bs m) (12 + id * 16 + 4) = B + 1 * bs := by
    unfold carvedMem
    rw [rd_wr_eq]
    exact hNext
  have hHdr : ∀ j, j ≤ 31 → rd (carvedMem id B bs m) (B + j * bs) = id := by
    intro j hj
    have hjle : j * bs ≤ 31 * bs := Nat.mul_le_mul_right bs hj
    unfold carvedMem
    rw [rd_wr, if_neg (by omega)]
    rcases Nat.eq_or_lt_of_le hj with heq | hlt
    · subst heq
      rw [rd_wr, if_neg (by omega), rd_wr_eq]
    · have hg := grid_lt hbs hlt
      rw [rd_wr, if_neg (by omega), rd_wr, if_neg (by omega)]
      exact carve_rd_hdr B bs id _ hbs 31 j hlt
  have hReadAl : ∀ x, 12 + id * 16 + 16 ≤ x → x + 8 + S ≤ B →
      rd (carvedMem id B bs m) x = rd m x := by
    intro x hx1 hx2
    unfold carvedMem
    rw [rd_wr, if_neg (by omega), rd_wr, if_neg (by omega), rd_wr, if_neg (by omega)]
    rw [carve_rd_out B bs id _ 31 x ?_]
    · rw [rd_wr, if_neg (by omega)]
    · intro j hj
      constructor <;> omega
  have hLink : ∀ j, 1 ≤ j → j < 31 →
      rd (carvedMem id B bs m) (B + j * bs + 8) = B + (j + 1) * bs := by
    intro j hj1 hj31
    have hg := grid_lt hbs hj31
    have hjb : 1 * bs ≤ j * bs := Nat.mul_le_mul_right bs hj1
    unfold carvedMem
    rw [rd_wr, if_neg (by omega), rd_wr, if_neg (by omega), rd_wr, if_neg (by omega)]
    exact carve_rd_link B bs id _ hbs 31 j hj31
  have hLast : rd (carvedMem id B bs m) (B + 31 * bs + 8) = 0 := by
    unfold carvedMem
    rw [rd_wr, if_neg (by omega), rd_wr_eq]
  refine ⟨?_, ⟨?_, ?_, ?_, ?_, ?_⟩, hRead8⟩
  · simp only [Alloc.falloc, Alloc.TYPE_TABLE_INDEX, Alloc.TYPE_TABLE_RECORD_SIZE,
      Alloc.HEADER_SIZE, Alloc.BUMP_PTR_ADDR, carvedMem, hc0, if_pos rfl, if_true,
      ← hBdef, ← hSdef, ← hbsdef]
    rw [if_neg hroom]
  · rw [hHead]
    exact slabNodes_chain B bs _ (by omega) 31 1 (by omega) (by omega) (by omega)
      hLink hLast
  · rw [List.pairwise_append]
    refine ⟨slabNodes_pairwise B bs hbs 31 1, ?_, ?_⟩
    · refine List.Pairwise.cons ?_ hpal
      intro y hy
      have hmy := hm y (by simpa using hy)
      exact ⟨by omega, by omega, by omega⟩
    · intro x hx y hy
      obtain ⟨j, hj1, hj2, rfl⟩ := slabNodes_mem B bs 31 1 x hx
      have hjb : 1 * bs ≤ j * bs := Nat.mul_le_mul_right bs hj1
      rcases List.mem_cons.mp hy with rfl | hy
      · exact ⟨by omega, by omega, by omega⟩
      · have hmy := hm y (by simpa using hy)
        exact ⟨by omega, by omega, by omega⟩
  · intro x hx
    rw [hReadS, hRead8]
    rcases List.mem_append.mp hx with hx | hx
    · obtain ⟨j, hj1, hj2, rfl⟩ := slabNodes_mem B bs 31 1 x hx
      have hjb : 1 * bs ≤ j * bs := Nat.mul_le_mul_right bs hj1
      have hjs : (j + 1) * bs ≤ 32 * bs := Nat.mul_le_mul_right bs (by omega)
      have hring : j * bs + bs = (j + 1) * bs := by ring
      refine ⟨by omega, by omega, ?_⟩
      exact hHdr j (by omega)
    · rcases List.mem_cons.mp hx with rfl | hx
      · refine ⟨hBlow, by omega, ?_⟩
        have := hHdr 0 (by omega)
        rw [show B + 0 * bs = B by omega] at this
        exact this
      · have hmx := hm x (by simpa using hx)
        refine ⟨hmx.1, by omega, ?_⟩
        rw [hReadAl x hmx.1 hmx.2.1]
        exact hmx.2.2
  · rw [hReadS]
    exact hs
  · rw [hRead8]
    omega

theorem falloc_full (msize id : Nat) (m : Mem)
    (hc0 : rd m (12 + id * 16 + 4) = 0)
    (hroom : msize < rd m 8 + 32 * (8 + rd m (12 + id * 16))) :
    Alloc.falloc msize id m = (0, m) := by
  simp only [Alloc.falloc, Alloc.TYPE_TABLE_INDEX, Alloc.TYPE_TABLE_RECORD_SIZE,
    Alloc.HEADER_SIZE, Alloc.BUMP_PTR_ADDR, hc0, if_pos rfl, if_true]
  rw [if_pos hroom]

/-- Phase 1: `N` successful allocations pop or carve; the popped blocks
(newest first) move to the allocated side and the returned pointers are the
block addresses plus the 8-byte header. -/
theorem fallocN_spec (msize id : Nat) :
    ∀ (N : Nat) (m : Mem) (fl al : List Nat), Alloc.Inv id m fl al →
      (∀ p ∈ (Alloc.fallocN msize id N m).1, p ≠ 0) →
      ∃ (fl' nw : List Nat),
        Alloc.Inv id (Alloc.fallocN msize id N m).2 fl' (nw.reverse ++ al) ∧
        (Alloc.fallocN msize id N m).1 = nw.map (· + 8) ∧ nw.length = N := by
  intro N
  induction N with
  | zero =>
      intro m fl al hInv _
      exact ⟨fl, [], hInv, rfl, rfl⟩
  | succ N ih =>
      intro m fl al hInv hok
      match fl, hInv with
      | a :: fl', hInv =>
        obtain ⟨heq, hI2⟩ := falloc_pop msize id a fl' al m hInv
        have hstep : Alloc.fallocN msize id (N + 1) m
            = ((a + 8) :: (Alloc.fallocN msize id N
                (wr (12 + id * 16 + 4) (rd m (a + 8)) m)).1,
              (Alloc.fallocN msize id N (wr (12 + id * 16 + 4) (rd m (a + 8)) m)).2) := by
          simp only [Alloc.fallocN, heq]
        have hok' : ∀ p ∈ (Alloc.fallocN msize id N
            (wr (12 + id * 16 + 4) (rd m (a + 8)) m)).1, p ≠ 0 := by
          intro p hp
          exact hok p (by rw [hstep]; exact List.mem_cons_of_mem _ hp)
        obtain ⟨fl'', nw', hI3, hmap, hlen⟩ :=
          ih (wr (12 + id * 16 + 4) (rd m (a + 8)) m) fl' (a :: al) hI2 hok'
        refine ⟨fl'', a :: nw', ?_, ?_, ?_⟩
        · rw [hstep]
          have : (a :: nw').reverse ++ al = nw'.reverse ++ (a :: al) := by
            simp [List.append_assoc]
          rw [this]
          exact hI3
        · rw [hstep]
          simp only [List.map_cons]
          rw [hmap]
        · simp [hlen]
      | [], hInv =>
        by_cases hroom : msize < rd m 8 + 32 * (8 + rd m (12 + id * 16))
        · exfalso
          have hfull := falloc_full msize id m hInv.1 hroom
          have : (0 : Nat) ≠ 0 := by
            refine hok 0 ?_
            simp only [Alloc.fallocN, hfull]
            exact List.mem_cons_self _ _
          exact this rfl
        · obtain ⟨heq, hI2, _⟩ := falloc_carve msize id al m hInv hroom
          have hstep : Alloc.fallocN msize id (N + 1) m
              = ((rd m 8 + 8) :: (Alloc.fallocN msize id N
                  (carvedMem id (rd m 8) (8 + rd m (12 + id * 16)) m)).1,
                (Alloc.fallocN msize id N
                  (carvedMem id (rd m 8) (8 + rd m (12 + id * 16)) m)).2) := by
            simp only [Alloc.fallocN, heq]
          have hok' : ∀ p ∈ (Alloc.fallocN msize id N
              (carvedMem id (rd m 8) (8 + rd m (12 + id * 16)) m)).1, p ≠ 0 := by
            intro p hp
            exact hok p (by rw [hstep]; exact List.mem_cons_of_mem _ hp)
          obtain ⟨fl'', nw', hI3, hmap, hlen⟩ :=
            ih (carvedMem id (rd m 8) (8 + rd m (12 + id * 16)) m)
              (slabNodes (rd m 8) (8 + rd m (12 + id * 16)) 1 31)
              (rd m 8 :: al) hI2 hok'
          refine ⟨fl'', rd m 8 :: nw', ?_, ?_, ?_⟩
          · rw [hstep]
            have : (rd m 8 :: nw').reverse ++ al = nw'.reverse ++ (rd m 8 :: al) := by
              simp [List.append_assoc]
            rw [this]
            exact hI3
          · rw [hstep]
            simp only [List.map_cons]
            rw [hmap]
          · simp [hlen]

/-- Phase 2: freeing the blocks pushes each one back onto the freelist,
growing it by one per free and leaving the bump pointer untouched. -/
theorem ffreeAll_spec (id : Nat) :
    ∀ (nw : List Nat) (m : Mem) (fl al : List Nat), Alloc.Inv id m fl al →
      (∀ a ∈ nw, a ∈ al) → nw.Nodup →
      ∃ (fl' al' : List Nat),
        Alloc.Inv id (Alloc.ffreeAll (nw.map (· + 8)) m) fl' al' ∧
        fl'.length = fl.length + nw.length ∧
        rd (Alloc.ffreeAll (nw.map (· + 8)) m) 8 = rd m 8 := by
  intro nw
  induction nw with
  | nil =>
      intro m fl al hInv _ _
      exact ⟨fl, al, hInv, by simp, rfl⟩
  | cons a nw ih =>
      intro m fl al hInv hmem hnd
      have ha : a ∈ al := hmem a (List.mem_cons_self a nw)
      obtain ⟨heq, hI2⟩ := ffree_push id a fl al m hInv ha
      have hma := (hInv.2.2.1) a (by simp [ha])
      have hstep : Alloc.ffreeAll ((a :: nw).map (· + 8)) m
          = Alloc.ffreeAll (nw.map (· + 8))
              (wr (12 + id * 16 + 4) a (wr (a + 8) (rd m (12 + id * 16 + 4)) m)) := by
        simp only [List.map_cons, Alloc.ffreeAll, List.foldl_cons, heq]
      have hmem' : ∀ b ∈ nw, b ∈ al.erase a := by
        intro b hb
        have hba : b ≠ a := by
          intro heq
          subst heq
          exact (List.nodup_cons.mp hnd).1 hb
        exact (List.mem_erase_of_ne hba).mpr (hmem b (List.mem_cons_of_mem a hb))
      obtain ⟨fl', al', hI3, hlen, hbump⟩ :=
        ih (wr (12 + id * 16 + 4) a (wr (a + 8) (rd m (12 + id * 16 + 4)) m))
          (a :: fl) (al.erase a) hI2 hmem' (List.nodup_cons.mp hnd).2
      refine ⟨fl', al', by rw [hstep]; exact hI3, by simp at hlen ⊢; omega, ?_⟩
      rw [hstep, hbump]
      rw [rd_wr_ne _ _ (show (8:Nat) ≠ 12 + id * 16 + 4 by omega),
        rd_wr_ne _ _ (by omega)]

/-- Phase 3: when the freelist holds at least `N` blocks, `N` allocations
are all served by popping it — every returned pointer is nonzero and the
bump pointer never moves. -/
theorem fallocN_pop_only (msize id : Nat) :
    ∀ (N : Nat) (m : Mem) (fl al : List Nat), Alloc.Inv id m fl al →
      N ≤ fl.length →
      (∀ q ∈ (Alloc.fallocN msize id N m).1, q ≠ 0) ∧
        rd (Alloc.fallocN msize id N m).2 8 = rd m 8 := by
  intro N
  induction N with
  | zero =>
      intro m fl al _ _
      exact ⟨by intro q hq; simp [Alloc.fallocN] at hq, rfl⟩
  | succ N ih =>
      intro m fl al hInv hlen
      match fl, hInv, hlen with
      | a :: fl', hInv, hlen =>
        obtain ⟨heq, hI2⟩ := falloc_pop msize id a fl' al m hInv
        have hstep : Alloc.fallocN msize id (N + 1) m
            = ((a + 8) :: (Alloc.fallocN msize id N
                (wr (12 + id * 16 + 4) (rd m (a + 8)) m)).1,
              (Alloc.fallocN msize id N (wr (12 + id * 16 + 4) (rd m (a + 8)) m)).2) := by
          simp only [Alloc.fallocN, heq]
        obtain ⟨hok', hbump'⟩ :=
          ih (wr (12 + id * 16 + 4) (rd m (a + 8)) m) fl' (a :: al) hI2
            (by simp at hlen; omega)
        constructor
        · intro q hq
          rw [hstep] at hq
          rcases List.mem_cons.mp hq with rfl | hq
          · omega
          · exact hok' q hq
        · rw [hstep, hbump']
          rw [rd_wr_ne _ _ (show (8:Nat) ≠ 12 + id * 16 + 4 by omega)]

set_option maxHeartbeats 1000000 in
/-- C7: from any well-formed allocator state for a registered type `id`,
allocate `N` records (all succeeding), free all of them, then allocate `N`
more of the same type: every allocation of the second round succeeds by
popping the freelist, and the bump pointer does not move during the second
round — no new slab is carved. -/
theorem slab_reuse (msize id N : Nat) (m m1 m2 m3 : Mem) (ps qs : List Nat)
    (fl al : List Nat)
    (hInv : Alloc.Inv id m fl al)
    (hr1 : Alloc.fallocN msize id N m = (ps, m1))
    (hok : ∀ p ∈ ps, p ≠ 0)
    (hfree : Alloc.ffreeAll ps m1 = m2)
    (hr2 : Alloc.fallocN msize id N m2 = (qs, m3)) :
    (∀ q ∈ qs, q ≠ 0) ∧ rd m3 Alloc.BUMP_PTR_ADDR = rd m2 Alloc.BUMP_PTR_ADDR := by
  obtain ⟨fl1, nw, hI1, hmap, hlen⟩ :=
    fallocN_spec msize id N m fl al hInv (by rw [hr1]; exact hok)
  rw [hr1] at hI1 hmap
  have hmap' : ps = List.map (fun x => x + 8) nw := hmap
  have hI1' : Alloc.Inv id m1 fl1 (nw.reverse ++ al) := hI1
  have hnd : nw.Nodup := by
    have hsub : List.Sublist nw.reverse (fl1 ++ (nw.reverse ++ al)) :=
      (List.sublist_append_left nw.reverse al).trans
        (List.sublist_append_right fl1 (nw.reverse ++ al))
    have hpw : List.Pairwise Alloc.Sep2 nw.reverse := (hI1.2.1).sublist hsub
    have : nw.reverse.Nodup := hpw.imp (fun h => h.1)
    exact List.nodup_reverse.mp this
  have hmem : ∀ a ∈ nw, a ∈ nw.reverse ++ al := by
    intro a ha
    exact List.mem_append.mpr (Or.inl (List.mem_reverse.mpr ha))
  obtain ⟨fl2, al2, hI2, hlen2, _⟩ :=
    ffreeAll_spec id nw m1 fl1 (nw.reverse ++ al) hI1' hmem hnd
  have hI2' : Alloc.Inv id m2 fl2 al2 := by
    rw [← hfree, hmap']
    exact hI2
  obtain ⟨hok2, hbump2⟩ :=
    fallocN_pop_only msize id N m2 fl2 al2 hI2' (by omega)
  rw [hr2] at hok2 hbump2
  simp only [Alloc.BUMP_PTR_ADDR]
  exact ⟨hok2, hbump2⟩

/-- Concrete fixed-heap scenario: register one 8-byte type (id 0), allocate
one record (carving the first slab), free it, allocate again. -/
def fxm : Mem := Alloc.register 8 0 0 (Alloc.init zeroMem)

def fx1 : List Nat × Mem := Alloc.fallocN 1024 0 1 fxm

def fx2 : Mem := Alloc.ffreeAll fx1.1 fx1.2

def fx3 : List Nat × Mem := Alloc.fallocN 1024 0 1 fx2

/-- C7: witness at the concrete one-type, one-record scenario. -/
theorem slab_reuse_witness :
    (∀ q ∈ fx3.1, q ≠ 0) ∧ rd fx3.2 Alloc.BUMP_PTR_ADDR = rd fx2 Alloc.BUMP_PTR_ADDR :=
  slab_reuse 1024 0 1 fxm fx1.2 fx2 fx3.2 fx1.1 fx3.1 [] []
    ⟨(by decide : rd fxm (12 + 0 * 16 + 4) = 0), List.Pairwise.nil,
      (by intro a ha; simp at ha), (by decide), (by decide)⟩
    rfl (by decide) rfl rfl

/-! ## Source types and assignability (`src/ast.rs`, `src/analysis/types/mod.rs`)

`Type` and `TypeKind` are transliterated from `src/ast.rs`; `==` on them is
Rust's derived structural `PartialEq`, modelled by the mutually recursive
boolean equalities below. -/

mutual
inductive TypeKind : Type where
  | integer : TypeKind
  | float : TypeKind
  | boolean : TypeKind
  | string : TypeKind
  | struct_ : String → TypeKind
  | error : String → TypeKind
  | list : StarType → TypeKind
  | dict : StarType → StarType → TypeKind
  | function : List StarType → StarType → TypeKind
  | null : TypeKind
  | unknown : TypeKind

inductive StarType : Type where
  | mk : TypeKind → Bool → Bool → StarType
end

def StarType.kind : StarType → TypeKind
  | .mk k _ _ => k

def StarType.nullable : StarType → Bool
  | .mk _ n _ => n

def StarType.errorable : StarType → Bool
  | .mk _ _ e => e

mutual
def kindEq : TypeKind → TypeKind → Bool
  | .integer, .integer => true
  | .float, .float => true
  | .boolean, .boolean => true
  | .string, .string => true
  | .struct_ a, .struct_ b => a == b
  | .error a, .error b => a == b
  | .list a, .list b => tyEq a b
  | .dict k v, .dict k' v' => tyEq k k' && tyEq v v'
  | .function ps r, .function ps' r' => tysEq ps ps' && tyEq r r'
  | .null, .null => true
  | .unknown, .unknown => true
  | _, _ => false

def tyEq : StarType → StarType → Bool
  | .mk k n e, .mk k' n' e' => kindEq k k' && n == n' && e == e'

def tysEq : List StarType → List StarType → Bool
  | [], [] => true
  | a :: as1, b :: bs => tyEq a b && tysEq as1 bs
  | _, _ => false
end

/-- `TypeChecker::is_assignable` from `src/analysis/types/mod.rs`. -/
def is_assignable (fr tgt : StarType) : Bool :=
  if kindEq fr.kind TypeKind.null then tgt.nullable
  else if kindEq fr.kind TypeKind.unknown then
    (fr.nullable == tgt.nullable || tgt.nullable)
      && (fr.errorable == tgt.errorable || tgt.errorable)
  else
    kindEq fr.kind tgt.kind
      && (fr.nullable == tgt.nullable || tgt.nullable)
      && (fr.errorable == tgt.errorable || tgt.errorable)

mutual
theorem kindEq_refl : ∀ k : TypeKind, kindEq k k = true
  | .integer => rfl
  | .float => rfl
  | .boolean => rfl
  | .string => rfl
  | .struct_ a => by simp [kindEq]
  | .error a => by simp [kindEq]
  | .list a => by simp [kindEq, tyEq_refl a]
  | .dict k v => by simp [kindEq, tyEq_refl k, tyEq_refl v]
  | .function ps r => by simp [kindEq, tysEq_refl ps, tyEq_refl r]
  | .null => rfl
  | .unknown => rfl

theorem tyEq_refl : ∀ t : StarType, tyEq t t = true
  | .mk k n e => by simp [tyEq, kindEq_refl k]

theorem tysEq_refl : ∀ l : List StarType, tysEq l l = true
  | [] => rfl
  | a :: l => by simp [tysEq, tyEq_refl a, tysEq_refl l]
end

theorem kindEq_null_false (k : TypeKind) (hk : k ≠ TypeKind.null) :
    kindEq k TypeKind.null = false := by
  cases k <;> simp_all [kindEq]

/-- C4: counterexample.  The claim quantifies over every kind; take `T` to be
the plain type of kind `Null` (both flags false).  `is_assignable` routes any
`Null`-kinded source through the nullable check of the target, so `T` is not
assignable to itself (nor to `T!`), refuting `T ≤ T` as stated. -/
theorem null_kind_not_self_assignable :
    is_assignable (StarType.mk TypeKind.null false false)
        (StarType.mk TypeKind.null false false) = false ∧
      is_assignable (StarType.mk TypeKind.null false false)
        (StarType.mk TypeKind.null false true) = false := by
  refine ⟨rfl, rfl⟩

/-- C4 (amended): for every concrete type `T` of any kind other than `Null`
(both flags false): `T ≤ T`, `T ≤ T?`, `T ≤ T!`, `T ≤ T?!`; the type of the
`null` literal is assignable to `T?` and `T?!` but not to plain `T`; and the
`Unknown` type is assignable to `T`. -/
theorem assignability_laws (k : TypeKind) (hk : k ≠ TypeKind.null) :
    is_assignable (StarType.mk k false false) (StarType.mk k false false) = true ∧
      is_assignable (StarType.mk k false false) (StarType.mk k true false) = true ∧
      is_assignable (StarType.mk k false false) (StarType.mk k false true) = true ∧
      is_assignable (StarType.mk k false false) (StarType.mk k true true) = true ∧
      is_assignable (StarType.mk TypeKind.null true false)
        (StarType.mk k true false) = true ∧
      is_assignable (StarType.mk TypeKind.null true false)
        (StarType.mk k true true) = true ∧
      is_assignable (StarType.mk TypeKind.null true false)
        (StarType.mk k false false) = false ∧
      is_assignable (StarType.mk TypeKind.unknown false false)
        (StarType.mk k false false) = true := by
  cases k <;>
    simp_all [is_assignable, StarType.kind, StarType.nullable, StarType.errorable,
      kindEq, tyEq_refl, tysEq_refl]

/-- C4 (amended): witness at `T = Integer`. -/
theorem assignability_laws_witness :
    is_assignable (StarType.mk TypeKind.integer false false)
        (StarType.mk TypeKind.integer false false) = true ∧
      is_assignable (StarType.mk TypeKind.integer false false)
        (StarType.mk TypeKind.integer true false) = true ∧
      is_assignable (StarType.mk TypeKind.integer false false)
        (StarType.mk TypeKind.integer false true) = true ∧
      is_assignable (StarType.mk TypeKind.integer false false)
        (StarType.mk TypeKind.integer true true) = true ∧
      is_assignable (StarType.mk TypeKind.null true false)
        (StarType.mk TypeKind.integer true false) = true ∧
      is_assignable (StarType.mk TypeKind.null true false)
        (StarType.mk TypeKind.integer true true) = true ∧
      is_assignable (StarType.mk TypeKind.null true false)
        (StarType.mk TypeKind.integer false false) = false ∧
      is_assignable (StarType.mk TypeKind.unknown false false)
        (StarType.mk TypeKind.integer false false) = true :=
  assignability_laws TypeKind.integer (by intro h; nomatch h)

/-! ## Expression parsing (`src/frontend/parser/mod.rs`, `src/parser/expr.rs`)

The binding-power tables are transliterated from
`src/frontend/parser/mod.rs`.  The Pratt loop itself lives in the parser's
`expr` submodule; its recursive-descent structure is modelled from the
in-repo `src/parser/expr.rs` (`parse_expression`): parse a primary or a
prefix operator applied to an operand at the prefix binding power, then fold
infix operators while their left binding power is at least `min_bp`.  Only
the expression forms reachable from the inputs under study are included
(integer and identifier primaries, parentheses, prefix and infix operators);
the postfix arms (call, index, field, unwrap) consume tokens that do not
occur in those inputs.  Parsing is driven by fuel, decremented on every
recursive call; any fuel at least the token count suffices. -/

inductive Token : Type where
  | integer (n : Int)
  | identifier (s : String)
  | plus | minus | multiply | divide | modulo | power
  | and_ | or_ | not_ | eq | neq | lt | gt | lte | gte
  | bitwiseAnd | bitwiseOr | xor | sll | srl
  | is_ | in_ | count | stringify
  | lparenthesis | rparenthesis
  deriving DecidableEq

inductive BinaryOp : Type where
  | plus | minus | multiply | divide | power
  | and_ | or_ | eq | neq | lt | gt | lte | gte
  | bitwiseAnd | bitwiseOr | xor | sll | srl
  | is_ | in_ | modulo
  deriving DecidableEq

inductive UnaryOp : Type where
  | not_ | minus | raise | count | stringify
  deriving DecidableEq

inductive PExpr : Type where
  | integer (n : Int)
  | ident (s : String)
  | unary (op : UnaryOp) (e : PExpr)
  | binary (left : PExpr) (op : BinaryOp) (right : PExpr)
  deriving DecidableEq

/-- `Parser::infix_binding_power` from `src/frontend/parser/mod.rs`. -/
def infix_binding_power : Token → Option (Nat × Nat)
  | .is_ => some (0, 1)
  | .or_ => some (1, 2)
  | .and_ => some (3, 4)
  | .eq | .neq => some (5, 6)
  | .lt | .gt | .lte | .gte => some (7, 8)
  | .bitwiseOr => some (9, 10)
  | .xor => some (11, 12)
  | .bitwiseAnd => some (13, 14)
  | .sll | .srl => some (15, 16)
  | .plus | .minus => some (17, 18)
  | .multiply | .divide | .modulo => some (19, 20)
  | .in_ => some (21, 22)
  | .power => some (24, 23)
  | _ => none

/-- `Parser::prefix_binding_power` from `src/frontend/parser/mod.rs`. -/
def prefix_binding_power : Token → Option Nat
  | .minus | .not_ | .count | .stringify => some 23
  | _ => none

/-- `Parser::token_to_binary_op` from `src/frontend/parser/mod.rs`. -/
def token_to_binary_op : Token → Option BinaryOp
  | .plus => some .plus
  | .minus => some .minus
  | .multiply => some .multiply
  | .divide => some .divide
  | .power => some .power
  | .and_ => some .and_
  | .or_ => some .or_
  | .eq => some .eq
  | .neq => some .neq
  | .lt => some .lt
  | .gt => some .gt
  | .lte => some .lte
  | .gte => some .gte
  | .bitwiseAnd => some .bitwiseAnd
  | .bitwiseOr => some .bitwiseOr
  | .xor => some .xor
  | .sll => some .sll
  | .srl => some .srl
  | .is_ => some .is_
  | .in_ => some .in_
  | .modulo => some .modulo
  | _ => none

/-- The prefix operators' unary constructors. -/
def token_to_unary_op : Token → Option UnaryOp
  | .minus => some .minus
  | .not_ => some .not_
  | .count => some .count
  | .stringify => some .stringify
  | _ => none

mutual
/-- `parse_expression(min_bp)`: primary or prefix, then the infix loop. -/
def parseExpression : Nat → Nat → List Token → Option (PExpr × List Token)
  | 0, _, _ => none
  | fuel + 1, minBp, ts =>
    match ts with
    | .integer n :: rest => parseInfixLoop fuel minBp (PExpr.integer n) rest
    | .identifier s :: rest => parseInfixLoop fuel minBp (PExpr.ident s) rest
    | .lparenthesis :: rest =>
        match parseExpression fuel 0 rest with
        | some (e, .rparenthesis :: rest') => parseInfixLoop fuel minBp e rest'
        | _ => none
    | t :: rest =>
        match prefix_binding_power t, token_to_unary_op t with
        | some rbp, some op =>
            match parseExpression fuel rbp rest with
            | some (e, rest') => parseInfixLoop fuel minBp (PExpr.unary op e) rest'
            | none => none
        | _, _ => none
    | [] => none

/-- The infix loop of `parse_expression`: while the next token is an infix
operator whose left binding power is at least `min_bp`, consume it and parse
the right operand at its right binding power. -/
def parseInfixLoop : Nat → Nat → PExpr → List Token → Option (PExpr × List Token)
  | 0, _, _, _ => none
  | fuel + 1, minBp, left, ts =>
    match ts with
    | [] => some (left, [])
    | t :: rest =>
        match infix_binding_power t with
        | some (lbp, rbp) =>
            if lbp < minBp then some (left, ts)
            else
              match token_to_binary_op t with
              | some op =>
                  match parseExpression fuel rbp rest with
                  | some (right, rest') =>
                      parseInfixLoop fuel minBp (PExpr.binary left op right) rest'
                  | none => none
              | none => none
        | none => some (left, ts)
end

/-- C9: counterexample.  With the source's binding powers (`**` at `(24, 23)`
and prefix operators at 23), `- x ** y` parses as `-(x ** y)`: inside the
prefix operand (minimum binding power 23) the `**` token's left power 24
still binds.  The claim requires `(- x) ** y`. -/
theorem prefix_power_parse :
    parseExpression 10 0
        [Token.minus, Token.identifier "x", Token.power, Token.identifier "y"]
      = some (PExpr.unary UnaryOp.minus
          (PExpr.binary (PExpr.ident "x") BinaryOp.power (PExpr.ident "y")), []) ∧
      parseExpression 10 0
          [Token.minus, Token.identifier "x", Token.power, Token.identifier "y"]
        ≠ some (PExpr.binary (PExpr.unary UnaryOp.minus (PExpr.ident "x"))
            BinaryOp.power (PExpr.ident "y"), []) := by
  refine ⟨by decide, by decide⟩

/-- C9 (amended): `**` is right-associative — `x ** y ** z` parses as
`x ** (y ** z)` — while each prefix operator (`-`, `not`, `#`, `$`) binds
less tightly than `**` on its right: the prefix operator followed by `x ** y` parses as the prefix
operator applied to `x ** y`. -/
theorem power_right_assoc_prefix_weaker :
    parseExpression 10 0
        [Token.identifier "x", Token.power, Token.identifier "y", Token.power,
          Token.identifier "z"]
      = some (PExpr.binary (PExpr.ident "x") BinaryOp.power
          (PExpr.binary (PExpr.ident "y") BinaryOp.power (PExpr.ident "z")), []) ∧
      parseExpression 10 0
          [Token.minus, Token.identifier "x", Token.power, Token.identifier "y"]
        = some (PExpr.unary UnaryOp.minus
            (PExpr.binary (PExpr.ident "x") BinaryOp.power (PExpr.ident "y")), []) ∧
      parseExpression 10 0
          [Token.not_, Token.identifier "x", Token.power, Token.identifier "y"]
        = some (PExpr.unary UnaryOp.not_
            (PExpr.binary (PExpr.ident "x") BinaryOp.power (PExpr.ident "y")), []) ∧
      parseExpression 10 0
          [Token.count, Token.identifier "x", Token.power, Token.identifier "y"]
        = some (PExpr.unary UnaryOp.count
            (PExpr.binary (PExpr.ident "x") BinaryOp.power (PExpr.ident "y")), []) ∧
      parseExpression 10 0
          [Token.stringify, Token.identifier "x", Token.power, Token.identifier "y"]
        = some (PExpr.unary UnaryOp.stringify
            (PExpr.binary (PExpr.ident "x") BinaryOp.power (PExpr.ident "y")), []) := by
  refine ⟨by decide, by decide, by decide, by decide, by decide⟩

/-! ## The nullable/errorable wrapper (`src/wrap.rs`) and statement emission
(`src/backend/codegen/stmt.rs`)

`AnalyzedExpr` carries a type and an expression; only the constructors the
wrapper's boxing path produces are needed.  `wrap_to_type` is transliterated
from `src/wrap.rs`; the `Raise` arm of `wrap_stmt` (lines 360–364) applies it
with `is_raised = true` to the recursively wrapped operand and the current
return type, so the arm is modelled as a function of that wrapped operand.
WebAssembly instructions are a deep embedding shared with the unwrap
development below; import indices are from
`src/backend/codegen/constants.rs`. -/

mutual
inductive AExpr : Type where
  | integer : Int → AExpr
  | ident : String → AExpr
  | new : String → List (String × AnalyzedExpr) → AExpr

inductive AnalyzedExpr : Type where
  | mk : StarType → AExpr → AnalyzedExpr
end

def AnalyzedExpr.ty : AnalyzedExpr → StarType
  | .mk t _ => t

/-- `Wrapper::wrap_to_type` from `src/wrap.rs`: box the expression into the
universal two-field tagged record when the value is the null literal, is
being raised, or crosses the plain → tagged boundary. -/
def wrap_to_type (e : AnalyzedExpr) (expected : StarType) (is_raised : Bool) :
    AnalyzedExpr :=
  if kindEq e.ty.kind TypeKind.null || is_raised
      || ((!e.ty.errorable && !e.ty.nullable)
          && (expected.errorable || expected.nullable)) then
    .mk expected (.new ""
      [("tag", .mk (StarType.mk TypeKind.integer false false)
          (.integer (if is_raised then 1
            else if kindEq e.ty.kind TypeKind.null then 0 else 2))),
       ("value", e)])
  else e

inductive AStmt : Type where
  | raise : AnalyzedExpr → AStmt

/-- The `Raise` arm of `Wrapper::wrap_stmt` (`src/wrap.rs` lines 360–364),
as a function of the already-wrapped operand and the enclosing function's
return type. -/
def wrapStmt_raise (ret_type : StarType) (wrapped_operand : AnalyzedExpr) : AStmt :=
  .raise (wrap_to_type wrapped_operand ret_type true)

inductive ValType : Type where
  | i32 | i64 | f64
  deriving DecidableEq

inductive BlockType : Type where
  | empty
  | result (vt : ValType)
  deriving DecidableEq

inductive Instr : Type where
  | i32const (n : Int)
  | i64const (n : Int)
  | i64load (offset : Nat) (memidx : Nat)
  | i64eq
  | localTee (n : Nat)
  | localGet (n : Nat)
  | ifBlk (bt : BlockType)
  | elseBlk
  | endBlk
  | unreachable
  | call (fidx : Nat)
  | ret
  | i32wrapI64
  | i64extendI32u
  | f64reinterpretI64
  | i64reinterpretF64
  | drop
  deriving DecidableEq

/-- Import function index of `shadow.pop` (`constants.rs`). -/
def SHADOW_POP : Nat := 15

/-- Memory index of the fixed heap (`constants.rs`, `mem::ALLOC`). -/
def MEM_ALLOC : Nat := 0

/-- Statements whose compilation the claims examine, parametric in the
expression language. -/
inductive IRStmtC (α : Type) : Type where
  | raiseStmt : α → IRStmtC α
  | returnStmt : Option α → IRStmtC α

/-- The `Raise` and `Return` arms of `Codegen::compile_stmt`
(`src/backend/codegen/stmt.rs`), parametric in the expression compiler the
source invokes as `self.compile_expr`. -/
def compile_stmt {α : Type} (compile_expr : α → List Instr) :
    IRStmtC α → List Instr
  | .raiseStmt e => compile_expr e ++ [.call SHADOW_POP, .ret]
  | .returnStmt oe =>
      (match oe with
        | some e => compile_expr e
        | none => [.i64const 0]) ++ [.call SHADOW_POP, .ret]

/-- C3: the wrapper lowers `raise e` to `Raise` of `e` boxed in a tagged
record whose `tag` field is the integer literal 1 (whatever `e`'s type and
the return type), and the emitted code for a `Raise` statement — like that
for every `Return` statement — evaluates the value, pops the shadow frame
(`call shadow.pop`), and only then returns. -/
theorem raise_boxes_tag_one_and_pops :
    (∀ (rt : StarType) (e : AnalyzedExpr),
      wrapStmt_raise rt e = .raise (.mk rt (.new ""
        [("tag", .mk (StarType.mk TypeKind.integer false false) (.integer 1)),
         ("value", e)]))) ∧
    (∀ (α : Type) (ce : α → List Instr) (e : α),
      compile_stmt ce (.raiseStmt e) = ce e ++ [.call SHADOW_POP, .ret]) ∧
    (∀ (α : Type) (ce : α → List Instr) (e : α),
      compile_stmt ce (.returnStmt (some e)) = ce e ++ [.call SHADOW_POP, .ret]) ∧
    (∀ (α : Type) (ce : α → List Instr),
      compile_stmt ce (.returnStmt (α := α) none)
        = [.i64const 0, .call SHADOW_POP, .ret]) := by
  refine ⟨?_, fun α ce e => rfl, fun α ce e => rfl, fun α ce => rfl⟩
  intro rt e
  unfold wrapStmt_raise wrap_to_type
  simp

/-! ## Struct literals: type checking and IR lowering
(`src/types/expr.rs` `check_expr`, `src/irgen.rs` `lower_expr`)

The checker's struct table maps a name to its declared fields and index; the
`HashMap` lookups of the source are modelled by association-list lookups.
The intermediate passes (locals analysis, flattening, wrapping) map the
field expressions of a `New` node in place without reordering, so IR
lowering is modelled directly on the checker's output. -/

mutual
inductive AstExpr : Type where
  | integer : Int → AstExpr
  | newE : String → List (String × AstExpr) → AstExpr

inductive TExpr : Type where
  | integer : Int → TExpr
  | newE : String → List (String × TypedExprT) → TExpr

inductive TypedExprT : Type where
  | mk : TExpr → StarType → TypedExprT
end

def TypedExprT.ty : TypedExprT → StarType
  | .mk _ t => t

/-- The checker's struct table: name → (declared fields, struct index). -/
abbrev StructTable := List (String × (List (String × StarType) × Int))

mutual
/-- The `Integer` and `New` arms of `TypeChecker::check_expr`
(`src/types/expr.rs`): a `new` expression must name a declared struct and
supply exactly its number of fields; each written field must exist (in any
order) with an assignable initializer.  The typed fields are accumulated in
the order written in the source. -/
def check_expr (structs : StructTable) : AstExpr → Option TypedExprT
  | .integer n => some (.mk (.integer n) (.mk .integer false false))
  | .newE name fields =>
      match structs.lookup name with
      | none => none
      | some (sfields, _) =>
          if sfields.length = fields.length then
            match check_fields structs sfields fields with
            | none => none
            | some tfields =>
                some (.mk (.newE name tfields) (.mk (.struct_ name) false false))
          else none

def check_fields (structs : StructTable) (sfields : List (String × StarType)) :
    List (String × AstExpr) → Option (List (String × TypedExprT))
  | [] => some []
  | (fname, fexpr) :: rest =>
      match sfields.find? (fun p => p.1 == fname) with
      | none => none
      | some (_, expected) =>
          match check_expr structs fexpr with
          | none => none
          | some te =>
              if is_assignable te.ty expected then
                match check_fields structs sfields rest with
                | none => none
                | some ts => some ((fname, te) :: ts)
              else none
end

/-- IR struct record: name and declared fields (`IRStruct` in
`src/ast/ir.rs`); its position in the list is the struct index. -/
structure IRStructM : Type where
  name : String
  fields : List (String × StarType)

mutual
inductive IRExprK : Type where
  | integer : Int → IRExprK
  | newE : Int → List IRExprT → IRExprK

inductive IRExprT : Type where
  | mkIR : IRExprK → StarType → IRExprT
end

/-- `IRGenerator::lookup_struct` (`src/irgen.rs`): position of the name in
the struct list. -/
def lookup_struct (structs : List IRStructM) (name : String) : Option Int :=
  (structs.findIdx? (fun s => s.name == name)).map (fun i => (i : Int))

/-- `IRGenerator::get_field_offset` (`src/irgen.rs`): 8 bytes per declared
field before the named one. -/
def get_field_offset (structs : List IRStructM) (sname fname : String) :
    Option Nat :=
  match structs.find? (fun s => s.name == sname) with
  | none => none
  | some st => go st.fields 0
where
  go : List (String × StarType) → Nat → Option Nat
    | [], _ => none
    | (n, _) :: rest, off => if n == fname then some off else go rest (off + 8)

mutual
/-- The `Integer` and `New` arms of `IRGenerator::lower_expr`
(`src/irgen.rs` lines 307–320): a `new` becomes `New(struct_index, fields)`
with the field expressions lowered in the order they appear, their names
discarded. -/
def lower_expr (structs : List IRStructM) : TypedExprT → Option IRExprT
  | .mk (.integer n) ty => some (.mkIR (.integer n) ty)
  | .mk (.newE name fields) ty =>
      match lookup_struct structs name with
      | none => none
      | some idx =>
          match lower_fields structs fields with
          | none => none
          | some irs => some (.mkIR (.newE idx irs) ty)

def lower_fields (structs : List IRStructM) :
    List (String × TypedExprT) → Option (List IRExprT)
  | [] => some []
  | (_, e) :: rest =>
      match lower_expr structs e with
      | none => none
      | some ir =>
          match lower_fields structs rest with
          | none => none
          | some irs => some (ir :: irs)
end

/-- The struct `S { a: integer, b: integer }` as the checker and IR
generator record it. -/
def sTable : StructTable :=
  [("S", ([("a", StarType.mk .integer false false),
           ("b", StarType.mk .integer false false)], 0))]

def sIR : List IRStructM :=
  [⟨"S", [("a", StarType.mk .integer false false),
          ("b", StarType.mk .integer false false)]⟩]

/-- The source expression `new S { b: 2, a: 1 }`: fields written in the
opposite of declared order, which the checker accepts. -/
def newBA : AstExpr := .newE "S" [("b", .integer 2), ("a", .integer 1)]

/-- C8: failing input.  The checker accepts `new S{b: 2, a: 1}` keeping the
written order, and IR lowering produces `New(0, [2, 1])` — the written
order, not the declared order `[1, 2]`.  Since declared field `a` has byte
offset 0 and `b` offset 8, the expression stored at offset 8·i is the i-th
written one, not the i-th declared one, contradicting the claim. -/
theorem new_fields_kept_in_source_order :
    (check_expr sTable newBA).isSome = true ∧
      (do lower_expr sIR (← check_expr sTable newBA))
        = some (.mkIR (.newE 0
            [.mkIR (.integer 2) (.mk .integer false false),
             .mkIR (.integer 1) (.mk .integer false false)])
            (.mk (.struct_ "S") false false)) ∧
      get_field_offset sIR "S" "a" = some 0 ∧
      get_field_offset sIR "S" "b" = some 8 ∧
      (do lower_expr sIR (← check_expr sTable newBA))
        ≠ some (.mkIR (.newE 0
            [.mkIR (.integer 1) (.mk .integer false false),
             .mkIR (.integer 2) (.mk .integer false false)])
            (.mk (.struct_ "S") false false)) := by
  refine ⟨by decide, rfl, by decide, by decide, ?_⟩
  intro h
  have h' : (some (IRExprT.mkIR (.newE 0
        [.mkIR (.integer 2) (.mk .integer false false),
         .mkIR (.integer 1) (.mk .integer false false)])
        (.mk (.struct_ "S") false false)) : Option IRExprT)
      = some (.mkIR (.newE 0
        [.mkIR (.integer 1) (.mk .integer false false),
         .mkIR (.integer 2) (.mk .integer false false)])
        (.mk (.struct_ "S") false false)) := h
  injection h' with h1
  injection h1 with h2 h3
  injection h2 with h4 h5
  injection h5 with h6 h7
  injection h6 with h8 h9
  injection h8 with h10
  exact absurd h10 (by decide)

/-! ## Unwrapping tagged records (`src/backend/codegen/helpers.rs` `emit_unwrap`)

The emitted instruction sequence is embedded deeply and run by a small
structured interpreter.  Runtime values are 64-bit patterns modelled as
`Nat`; `i32.wrap_i64` keeps the low 32 bits, the reinterpret casts preserve
the pattern.  `i64.load` reads the 64-bit word of the fixed heap at the
popped address plus the static offset.  `if`/`else`/`end` are executed by
skipping over the untaken branch with a nesting counter. -/

/-- `type_to_valtype` from `src/backend/codegen/helpers.rs`. -/
def type_to_valtype (ty : StarType) : ValType :=
  if ty.nullable || ty.errorable then .i32
  else match ty.kind with
    | .string => .i32
    | .function _ _ => .i64
    | .list _ => .i32
    | .struct_ _ => .i32
    | .boolean => .i32
    | .float => .f64
    | _ => .i64

/-- `emit_access_cast` from `src/backend/codegen/helpers.rs`: convert an
i64 storage value to the runtime representation of its type. -/
def emit_access_cast (k : TypeKind) : List Instr :=
  match k with
  | .struct_ _ => [.i32wrapI64]
  | .list _ => [.i32wrapI64]
  | .string => [.i32wrapI64]
  | .boolean => [.i32wrapI64]
  | .float => [.f64reinterpretI64]
  | _ => []

/-- `emit_unwrap` from `src/backend/codegen/helpers.rs`: check the record's
tag word against `tag`, trap on equality, otherwise load the value word and
cast it when the result type is fully unwrapped. -/
def emit_unwrap (tag : Int) (result_ty : StarType) : List Instr :=
  [.localTee 0,
   .i64load 0 MEM_ALLOC,
   .i64const tag,
   .i64eq,
   .ifBlk (.result (type_to_valtype result_ty)),
   .unreachable,
   .elseBlk,
   .localGet 0]
  ++ (if !result_ty.nullable && !result_ty.errorable then
        .i64load 8 MEM_ALLOC :: emit_access_cast result_ty.kind
      else [])
  ++ [.endBlk]

inductive UnwrapKind : Type where
  | unwrapNull
  | unwrapError

/-- The `UnwrapNull`/`UnwrapError` arms of `Codegen::compile_expr`
(`src/backend/codegen/expr.rs` lines 650–657) call `emit_unwrap` with tag 0
for `??` and tag 1 for `!!`. -/
def unwrap_check_tag : UnwrapKind → Int
  | .unwrapNull => 0
  | .unwrapError => 1

/-- Skip the then-branch of an `if` whose condition was false: return the
code after the matching `else` (or after the matching `end` when no `else`
is present). -/
def skipElse : Nat → List Instr → Option (List Instr)
  | _, [] => none
  | d, i :: rest =>
    match i with
    | .ifBlk _ => skipElse (d + 1) rest
    | .elseBlk => if d = 0 then some rest else skipElse d rest
    | .endBlk => if d = 0 then some rest else skipElse (d - 1) rest
    | _ => skipElse d rest

/-- Skip the remainder of a taken then-branch upon reaching `else`: return
the code after the matching `end`. -/
def skipEnd : Nat → List Instr → Option (List Instr)
  | _, [] => none
  | d, i :: rest =>
    match i with
    | .ifBlk _ => skipEnd (d + 1) rest
    | .endBlk => if d = 0 then some rest else skipEnd (d - 1) rest
    | _ => skipEnd d rest

inductive Outcome : Type where
  | trap
  | val (stack : List Nat)

/-- Fueled interpreter over the instruction fragment: `m` is the fixed
heap's 64-bit word at a byte address; `none` means out of fuel, an
ill-formed stack, or an instruction outside the modelled fragment. -/
def runI (m : Nat → Nat) : Nat → (Nat → Nat) → List Nat → List Instr →
    Option Outcome
  | 0, _, _, _ => none
  | _ + 1, _, stack, [] => some (.val stack)
  | fuel + 1, locals, stack, i :: rest =>
    match i with
    | .i64const n => runI m fuel locals ((n % 2 ^ 64).toNat :: stack) rest
    | .i32const n => runI m fuel locals ((n % 2 ^ 32).toNat :: stack) rest
    | .i64load off midx =>
        match stack with
        | a :: s =>
            if midx = MEM_ALLOC then runI m fuel locals (m (a + off) :: s) rest
            else none
        | [] => none
    | .i64eq =>
        match stack with
        | b :: a :: s =>
            runI m fuel locals ((if a = b then 1 else 0) :: s) rest
        | _ => none
    | .localTee n =>
        match stack with
        | v :: _ =>
            runI m fuel (fun j => if j = n then v else locals j) stack rest
        | [] => none
    | .localGet n => runI m fuel locals (locals n :: stack) rest
    | .ifBlk _ =>
        match stack with
        | c :: s =>
            if c ≠ 0 then runI m fuel locals s rest
            else
              match skipElse 0 rest with
              | some rest2 => runI m fuel locals s rest2
              | none => none
        | [] => none
    | .elseBlk =>
        match skipEnd 0 rest with
        | some rest2 => runI m fuel locals stack rest2
        | none => none
    | .endBlk => runI m fuel locals stack rest
    | .unreachable => some .trap
    | .i32wrapI64 =>
        match stack with
        | v :: s => runI m fuel locals (v % 2 ^ 32 :: s) rest
        | [] => none
    | .i64extendI32u =>
        match stack with
        | v :: s => runI m fuel locals (v :: s) rest
        | [] => none
    | .f64reinterpretI64 =>
        match stack with
        | v :: s => runI m fuel locals (v :: s) rest
        | [] => none
    | .i64reinterpretF64 =>
        match stack with
        | v :: s => runI m fuel locals (v :: s) rest
        | [] => none
    | .drop =>
        match stack with
        | _ :: s => runI m fuel locals s rest
        | [] => none
    | _ => none

/-- The value `emit_access_cast` leaves for a stored 64-bit pattern. -/
def accessCast (k : TypeKind) (v : Nat) : Nat :=
  match k with
  | .struct_ _ => v % 2 ^ 32
  | .list _ => v % 2 ^ 32
  | .string => v % 2 ^ 32
  | .boolean => v % 2 ^ 32
  | .float => v
  | _ => v

/-- C2: for every fully-unwrapped result type, heap, locals and record
address `p` (tag word at `p`, value word at `p+8`), the code emitted for
`??` (tag check 0) traps exactly when the tag is 0 and otherwise leaves the
value word after its access cast, and the code emitted for `!!` (tag check
1) traps exactly when the tag is 1 and otherwise leaves the cast value;
with tag 2 neither traps and both yield the value. -/
theorem unwrap_inversion (ty : StarType)
    (hn : ty.nullable = false) (he : ty.errorable = false)
    (m : Nat → Nat) (l : Nat → Nat) (p : Nat) :
    (runI m 20 l [p] (emit_unwrap (unwrap_check_tag .unwrapNull) ty)
      = if m (p + 0) = 0 then some .trap
        else some (.val [accessCast ty.kind (m (p + 8))])) ∧
    (runI m 20 l [p] (emit_unwrap (unwrap_check_tag .unwrapError) ty)
      = if m (p + 0) = 1 then some .trap
        else some (.val [accessCast ty.kind (m (p + 8))])) := by
  obtain ⟨k, nb, eb⟩ := ty
  simp only [StarType.nullable] at hn
  simp only [StarType.errorable] at he
  subst hn he
  constructor
  · by_cases h : m (p + 0) = 0 <;>
      cases k <;>
        simp [runI, emit_unwrap, unwrap_check_tag, type_to_valtype,
          emit_access_cast, accessCast, skipElse, skipEnd, StarType.kind,
          StarType.nullable, StarType.errorable, MEM_ALLOC, h]
  · by_cases h : m (p + 0) = 1 <;>
      cases k <;>
        simp [runI, emit_unwrap, unwrap_check_tag, type_to_valtype,
          emit_access_cast, accessCast, skipElse, skipEnd, StarType.kind,
          StarType.nullable, StarType.errorable, MEM_ALLOC, h]

/-- Witness for C2 at a concrete record: tag word 2, value word 77, result
type plain integer — neither check traps and both runs yield 77. -/
theorem unwrap_inversion_witness :
    (StarType.mk .integer false false).nullable = false ∧
    (StarType.mk .integer false false).errorable = false ∧
    (runI (fun _ => 2) 20 (fun _ => 0) [0]
        (emit_unwrap (unwrap_check_tag .unwrapNull)
          (StarType.mk .integer false false))
      = if (fun _ => 2 : Nat → Nat) (0 + 0) = 0 then some .trap
        else some (.val [accessCast (StarType.mk .integer false false).kind
          ((fun _ => 2 : Nat → Nat) (0 + 8))])) ∧
    (runI (fun _ => 2) 20 (fun _ => 0) [0]
        (emit_unwrap (unwrap_check_tag .unwrapError)
          (StarType.mk .integer false false))
      = if (fun _ => 2 : Nat → Nat) (0 + 0) = 1 then some .trap
        else some (.val [accessCast (StarType.mk .integer false false).kind
          ((fun _ => 2 : Nat → Nat) (0 + 8))])) :=
  ⟨rfl, rfl,
    (unwrap_inversion (StarType.mk .integer false false) rfl rfl
      (fun _ => 2) (fun _ => 0) 0).1,
    (unwrap_inversion (StarType.mk .integer false false) rfl rfl
      (fun _ => 2) (fun _ => 0) 0).2⟩

end Star
